import Mathlib

/- A shallow embedding of the Record_Manager repository: the heap-file record
manager (src/record_mgr.c) and the page-cache buffer manager (src/buffer_mgr.c).

Byte buffers (pages, record payloads) are modelled as total maps from byte
offset to byte value.  The page size is a parameter everywhere (PAGE_SIZE in
the C source; 4096 is canonical but the design is parametric).  The C `int`
values stored inside pages (the slotsUsed header) are modelled as `Int` with
an explicit 4-byte little-endian two's-complement encoding.  The record
manager's view of the table is the page-file contents as seen through the
buffer pool (single-threaded, so the pool is transparent for page contents)
together with the RM_TableMgmtData fields; the buffer pool itself is modelled
separately, frame by frame, for the buffer-manager claims. -/

/-- Return codes (dberror.h).  `RC_ERROR` is the generic error code the source
uses for argument validation and for shutdown-with-pinned-pages. -/
inductive RC where
  | RC_OK
  | RC_ERROR
  | RC_FILE_NOT_FOUND
  | RC_MEMORY_ALLOCATION_ERROR
  | RC_RM_NO_MORE_TUPLES
  | RC_READ_NON_EXISTING_PAGE
  deriving DecidableEq

open RC

/-- A byte buffer (a page, or a record's payload buffer): a total map from
byte offset to byte value. -/
abbrev Page := Nat → Nat

/-- The all-zero page, as produced by `ensureCapacity` when it extends the
file, and the content of a `calloc`ed buffer. -/
def zeroPage : Page := fun _ => 0

/-- `memcpy(d + off, src, src.length)`: overwrite `src.length` bytes of `d`
starting at `off`. -/
def writeBytes (d : Page) (off : Nat) (src : List Nat) : Page :=
  fun i => if off ≤ i ∧ i < off + src.length then src.getD (i - off) 0 else d i

/-- Read `n` consecutive bytes of `d` starting at `off` (the source of a
`memcpy` out of a page). -/
def readBytes (d : Page) (off n : Nat) : List Nat :=
  (List.range n).map fun i => d (off + i)

/-- Decode four little-endian bytes as a 32-bit two's-complement `int`. -/
def decInt4 (b0 b1 b2 b3 : Nat) : Int :=
  let n : Nat := b0 % 256 + 256 * (b1 % 256) + 65536 * (b2 % 256) + 16777216 * (b3 % 256)
  if n < 2147483648 then (n : Int) else (n : Int) - 4294967296

/-- Encode a 32-bit `int` as four little-endian bytes (two's complement). -/
def encInt4 (v : Int) : List Nat :=
  let n : Nat := (v % 4294967296).toNat
  [n % 256, n / 256 % 256, n / 65536 % 256, n / 16777216 % 256]

/-- `memcpy(&slotsUsed, data, sizeof(int))`: the 4-byte header at offset 0. -/
def readHeader (d : Page) : Int := decInt4 (d 0) (d 1) (d 2) (d 3)

/-- `memcpy(data, &slotsUsed, sizeof(int))`: store the 4-byte header. -/
def writeHeader (d : Page) (v : Int) : Page := writeBytes d 0 (encInt4 v)

/-- computeMaxSlots (record_mgr.c): `(PAGE_SIZE - 4) / (recSize + 1)`. -/
def computeMaxSlots (pageSize recSize : Nat) : Nat := (pageSize - 4) / (recSize + 1)

/-- getSlotFlag (record_mgr.c): the usage byte of slot `s` is `data[4 + s]`. -/
def getSlotFlag (d : Page) (s : Nat) : Nat := d (4 + s)

/-- setSlotFlag (record_mgr.c): `data[4 + s] = val`. -/
def setSlotFlag (d : Page) (s v : Nat) : Page :=
  fun i => if i = 4 + s then v else d i

/-- A record identifier: page and slot (tables.h `RID`). -/
structure RID where
  page : Nat
  slot : Nat
  deriving DecidableEq

/-- A record: its RID and its payload buffer (tables.h `Record`). -/
structure Record where
  id : RID
  data : Page

/-- The table as the record manager observes it: the page-file contents
(index = page number; page 0 is the catalog) plus the RM_TableMgmtData
fields `numTuples`, `nextFreePage` and `recordSize`. -/
structure TableState where
  pages : List Page
  numTuples : Int
  nextFreePage : Int
  recordSize : Nat

/-- `ensureCapacity (p + 1)` as seen by a subsequent read: the file, extended
with zeroed pages so that page `p` exists. -/
def extendTo (ps : List Page) (p : Nat) : List Page :=
  ps ++ List.replicate (p + 1 - ps.length) zeroPage

/-- The free-slot search loop of insertRecord: the first slot below
`maxSlots` whose usage byte is 0. -/
def findFreeSlot (d : Page) (maxSlots : Nat) : Option Nat :=
  (List.range maxSlots).find? fun i => getSlotFlag d i == 0

/-- The body of insertRecord (record_mgr.c).  `fuel` bounds the
self-recursion taken in the no-free-slot branch; `none` means the C code
would recurse beyond the fuel (which cannot happen with fuel 2 whenever a
page holds at least one slot, since a retry lands on a freshly appended
all-zero page). -/
def insertRecordAux (pageSize : Nat) : Nat → TableState → Record → Option (RC × TableState × Record)
  | 0, _, _ => none
  | fuel + 1, st, record =>
    let recSize := st.recordSize
    -- if nextFreePage was not valid, append a new zeroed data page
    let st1 :=
      if st.nextFreePage < 1 then
        let pn := st.pages.length
        let pg := writeHeader zeroPage 0
        { st with pages := (extendTo st.pages pn).set pn pg, nextFreePage := (pn : Int) }
      else st
    let pageNum := st1.nextFreePage.toNat
    let ps2 := extendTo st1.pages pageNum
    let data := ps2.getD pageNum zeroPage
    let slotsUsed := readHeader data
    let maxSlots := computeMaxSlots pageSize recSize
    match findFreeSlot data maxSlots with
    | none =>
        insertRecordAux pageSize fuel { st1 with pages := ps2, nextFreePage := -1 } record
    | some freeSlot =>
        let off := 4 + maxSlots + freeSlot * recSize
        let data1 := writeBytes data off (readBytes record.data 0 recSize)
        let data2 := setSlotFlag data1 freeSlot 1
        let data3 := writeHeader data2 (slotsUsed + 1)
        let record := { record with id := ⟨pageNum, freeSlot⟩ }
        let st2 : TableState :=
          { pages := ps2.set pageNum data3,
            numTuples := st1.numTuples + 1,
            nextFreePage := if slotsUsed + 1 = (maxSlots : Int) then -1 else (pageNum : Int),
            recordSize := recSize }
        some (RC_OK, st2, record)

/-- insertRecord (record_mgr.c), with the bounded retry of the source
(the spec notes at most two iterations are ever taken). -/
def insertRecord (pageSize : Nat) (st : TableState) (record : Record) :
    Option (RC × TableState × Record) :=
  insertRecordAux pageSize 2 st record

/-- deleteRecord (record_mgr.c). -/
def deleteRecord (pageSize : Nat) (st : TableState) (id : RID) : RC × TableState :=
  let ps := extendTo st.pages id.page
  let data := ps.getD id.page zeroPage
  let slotsUsed := readHeader data
  if getSlotFlag data id.slot = 1 then
    let data1 := setSlotFlag data id.slot 0
    let slotsUsed1 := slotsUsed - 1
    let data2 := writeHeader data1 slotsUsed1
    let maxSlots := computeMaxSlots pageSize st.recordSize
    (RC_OK,
      { pages := ps.set id.page data2,
        numTuples := st.numTuples - 1,
        nextFreePage := if slotsUsed1 = (maxSlots : Int) - 1 then (id.page : Int) else st.nextFreePage,
        recordSize := st.recordSize })
  else
    (RC_OK, { st with pages := ps })

/-- updateRecord (record_mgr.c).  The record is returned unchanged, as the C
function never writes to it. -/
def updateRecord (pageSize : Nat) (st : TableState) (record : Record) :
    RC × TableState × Record :=
  let ps := extendTo st.pages record.id.page
  let data := ps.getD record.id.page zeroPage
  if getSlotFlag data record.id.slot = 0 then
    (RC_READ_NON_EXISTING_PAGE, { st with pages := ps }, record)
  else
    let maxSlots := computeMaxSlots pageSize st.recordSize
    let off := 4 + maxSlots + record.id.slot * st.recordSize
    let data1 := writeBytes data off (readBytes record.data 0 st.recordSize)
    (RC_OK, { st with pages := ps.set record.id.page data1 }, record)

/-- getRecord (record_mgr.c): the output record receives the payload bytes
and the RID. -/
def getRecord (pageSize : Nat) (st : TableState) (id : RID) (record : Record) :
    RC × TableState × Record :=
  let ps := extendTo st.pages id.page
  let data := ps.getD id.page zeroPage
  if getSlotFlag data id.slot = 0 then
    (RC_RM_NO_MORE_TUPLES, { st with pages := ps }, record)
  else
    let maxSlots := computeMaxSlots pageSize st.recordSize
    let off := 4 + maxSlots + id.slot * st.recordSize
    (RC_OK, { st with pages := ps },
      { id := id, data := writeBytes record.data 0 (readBytes data off st.recordSize) })

/-- Number of slots (below the slot capacity) whose usage byte equals 1. -/
def flagCount (d : Page) (maxSlots : Nat) : Nat :=
  ((Finset.range maxSlots).filter fun s => getSlotFlag d s = 1).card

/-- Sum of the 4-byte slotsUsed headers over all data pages (pages 1..). -/
def sumHeaders (st : TableState) : Int :=
  ((st.pages.drop 1).map readHeader).sum

/-- Total count of usage bytes equal to 1 over all data pages. -/
def sumFlags (pageSize : Nat) (st : TableState) : Int :=
  ((st.pages.drop 1).map fun pg =>
    ((flagCount pg (computeMaxSlots pageSize st.recordSize) : Int))).sum

/-- Table states reachable from `createTable` (which leaves a one-page file
holding the textual catalog `cat` on page 0, `numTuples = 0` and
`nextFreePage = -1`) by insertRecord, deleteRecord and updateRecord calls
whose RID slot numbers lie within the page's slot capacity. -/
inductive Reach (pageSize recSize : Nat) (cat : Page) : TableState → Prop where
  | init : Reach pageSize recSize cat ⟨[cat], 0, -1, recSize⟩
  | insert {st rec res} : Reach pageSize recSize cat st →
      insertRecord pageSize st rec = some res →
      Reach pageSize recSize cat res.2.1
  | del {st id} : Reach pageSize recSize cat st →
      id.slot < computeMaxSlots pageSize recSize →
      Reach pageSize recSize cat (deleteRecord pageSize st id).2
  | update {st rec} : Reach pageSize recSize cat st →
      rec.id.slot < computeMaxSlots pageSize recSize →
      Reach pageSize recSize cat (updateRecord pageSize st rec).2.1

/-- Replacement strategies advertised by the pool (buffer_mgr.h); the
source's victim rule never reads the strategy. -/
inductive ReplacementStrategy where
  | RS_FIFO
  | RS_LRU
  | RS_CLOCK
  | RS_LFU
  deriving DecidableEq

/-- One page frame (buffer_mgr.c `PageFrame`); `pageNum = -1` means empty. -/
structure Frame where
  data : Page
  pageNum : Int
  dirty : Bool
  fixCount : Nat
  usage : Nat

instance : Inhabited Frame := ⟨⟨zeroPage, -1, false, 0, 0⟩⟩

/-- The buffer pool bound to its page file (BM_BufferPool + BM_MgmtData +
the on-disk file contents).  `numRead` and `numWrite` are the `readIO` and
`writeIO` counters of the source. -/
structure Pool where
  strategy : ReplacementStrategy
  frames : List Frame
  numRead : Nat
  numWrite : Nat
  file : List Page

/-- initBufferPool + initPageFrameArray (buffer_mgr.c) over an existing
file: every frame empty, counters zero. -/
def initBufferPool (strategy : ReplacementStrategy) (numPages : Nat) (file : List Page) : Pool :=
  { strategy := strategy,
    frames := List.replicate numPages ⟨zeroPage, -1, false, 0, 0⟩,
    numRead := 0, numWrite := 0, file := file }

/-- findPageFrame (buffer_mgr.c): index of the frame holding `pn`. -/
def findPageFrame (frames : List Frame) (pn : Int) : Option Nat :=
  frames.findIdx? fun f => f.pageNum == pn

/-- findFreeFrame (buffer_mgr.c): index of the first empty frame. -/
def findFreeFrame (frames : List Frame) : Option Nat :=
  frames.findIdx? fun f => f.pageNum == -1

/-- The loop body of findVictimFrame: the accumulator carries the running
`(victimIndex, leastUsage)` pair, as C ints (`-1` / `2147483647` initially). -/
def victimStep (frames : List Frame) (acc : Int × Int) (i : Nat) : Int × Int :=
  let f := frames.getD i default
  if f.fixCount = 0 ∧ (f.usage : Int) < acc.2 then ((i : Int), (f.usage : Int)) else acc

/-- findVictimFrame (buffer_mgr.c): the unpinned frame with the least usage
counter (first wins on ties); if every frame is pinned, fall back to 0. -/
def findVictimFrame (frames : List Frame) : Nat :=
  let r := (List.range frames.length).foldl (victimStep frames) (-1, 2147483647)
  if r.1 < 0 then 0 else r.1.toNat

/-- writeDirtyPageToDisk (buffer_mgr.c): fseek + fwrite of one page at its
page number (writing past the current end extends the file with zero bytes). -/
def fileWrite (file : List Page) (pn : Int) (pg : Page) : List Page :=
  (extendTo file pn.toNat).set pn.toNat pg

/-- pinPage (buffer_mgr.c). The returned handle is identified by its page
number, as markDirty/unpinPage relocate the frame from it. -/
def pinPage (pool : Pool) (pageNum : Int) : RC × Pool :=
  if pageNum < 0 then (RC_ERROR, pool)
  else
    match findPageFrame pool.frames pageNum with
    | some i =>
        let f := pool.frames.getD i default
        (RC_OK, { pool with
          frames := pool.frames.set i { f with fixCount := f.fixCount + 1, usage := f.usage + 1 } })
    | none =>
        let fi :=
          match findFreeFrame pool.frames with
          | some j => j
          | none => findVictimFrame pool.frames
        let f := pool.frames.getD fi default
        let pool1 :=
          if f.dirty then
            { pool with file := fileWrite pool.file f.pageNum f.data,
                        numWrite := pool.numWrite + 1 }
          else pool
        let file := extendTo pool1.file pageNum.toNat
        let pg := file.getD pageNum.toNat zeroPage
        (RC_OK, { pool1 with
          file := file,
          numRead := pool1.numRead + 1,
          frames := pool1.frames.set fi ⟨pg, pageNum, false, 1, 1⟩ })

/-- markDirty (buffer_mgr.c). -/
def markDirty (pool : Pool) (pageNum : Int) : RC × Pool :=
  match findPageFrame pool.frames pageNum with
  | none => (RC_ERROR, pool)
  | some i =>
      let f := pool.frames.getD i default
      (RC_OK, { pool with frames := pool.frames.set i { f with dirty := true } })

/-- unpinPage (buffer_mgr.c): decrement the fix count if it is positive. -/
def unpinPage (pool : Pool) (pageNum : Int) : RC × Pool :=
  match findPageFrame pool.frames pageNum with
  | none => (RC_ERROR, pool)
  | some i =>
      let f := pool.frames.getD i default
      if f.fixCount > 0 then
        (RC_OK, { pool with frames := pool.frames.set i { f with fixCount := f.fixCount - 1 } })
      else (RC_OK, pool)

/-- The body of forceFlushPool's loop for frame `i`: write back a dirty
unpinned frame and clear its dirty bit. -/
def flushFrame (pool : Pool) (i : Nat) : Pool :=
  let f := pool.frames.getD i default
  if f.dirty ∧ f.fixCount = 0 then
    { pool with
      file := fileWrite pool.file f.pageNum f.data,
      numWrite := pool.numWrite + 1,
      frames := pool.frames.set i { f with dirty := false } }
  else pool

/-- forceFlushPool (buffer_mgr.c): flush every dirty frame with fix count 0,
in ascending frame order. -/
def forceFlushPool (pool : Pool) : RC × Pool :=
  (RC_OK, (List.range pool.frames.length).foldl flushFrame pool)

/-- shutdownBufferPool (buffer_mgr.c): flush, then fail with the generic
error code if any frame is still pinned (leaving the management state
alive); on success free everything (`none`). -/
def shutdownBufferPool (pool : Pool) : RC × Option Pool :=
  let p2 := (forceFlushPool pool).2
  if p2.frames.any fun f => f.fixCount > 0 then (RC_ERROR, some p2)
  else (RC_OK, none)

/-- getFrameContents (buffer_mgr.c); NO_PAGE is -1. -/
def getFrameContents (pool : Pool) : List Int := pool.frames.map Frame.pageNum

/-- getDirtyFlags (buffer_mgr.c). -/
def getDirtyFlags (pool : Pool) : List Bool := pool.frames.map Frame.dirty

/-- getFixCounts (buffer_mgr.c). -/
def getFixCounts (pool : Pool) : List Nat := pool.frames.map Frame.fixCount

/-- A client writing bytes through a pinned handle's aliased buffer
(`page->data` of BM_PageHandle): the resident frame's contents change in
place.  Models the page-handle contract used by the test driver. -/
def writeThroughHandle (pool : Pool) (pageNum : Int) (g : Page) : Pool :=
  match findPageFrame pool.frames pageNum with
  | none => pool
  | some i =>
      let f := pool.frames.getD i default
      { pool with frames := pool.frames.set i { f with data := g } }

/-- Attribute data types (tables.h `DataType`). -/
inductive DataType where
  | DT_INT
  | DT_STRING
  | DT_FLOAT
  | DT_BOOL
  deriving DecidableEq

/-- Schema (tables.h): the attribute accessors only consult the data types
and the string lengths. -/
structure Schema where
  numAttr : Nat
  dataTypes : List DataType
  typeLength : List Nat

/-- Value (tables.h).  A FLOAT value is carried as its four raw bytes:
setAttr/getAttr only ever memcpy the bit pattern, so the round trip is a
byte-level identity.  A string value is the bytes of the C string before
its terminator. -/
inductive Value where
  | VInt (v : Int)
  | VFloat (b0 b1 b2 b3 : Nat)
  | VBool (b : Bool)
  | VString (s : List Nat)
  deriving DecidableEq

/-- Byte size of one attribute: `sizeof(int) = 4`, `sizeof(float) = 4`,
`sizeof(bool) = 1`, strings take `typeLength` bytes (record_mgr.c offset
loops and computeRecordSize). -/
def typeSize (dt : DataType) (len : Nat) : Nat :=
  match dt with
  | .DT_INT => 4
  | .DT_FLOAT => 4
  | .DT_BOOL => 1
  | .DT_STRING => len

/-- Byte offset of attribute `attrNum`: the sum of the sizes of the earlier
attributes (the offset loop shared by getAttr and setAttr). -/
def attrOffset (schema : Schema) : Nat → Nat
  | 0 => 0
  | n + 1 => attrOffset schema n + typeSize (schema.dataTypes.getD n .DT_INT) (schema.typeLength.getD n 0)

/-- The bytes `memset(0)` + `strncpy` leave in a string field of width
`len`: the string's bytes up to its terminator, truncated to `len`, then
zero padding. -/
def storedString (s : List Nat) (len : Nat) : List Nat :=
  let t := (s.takeWhile fun b => b != 0).take len
  t ++ List.replicate (len - t.length) 0

/-- setAttr (record_mgr.c): write the value's bytes at the attribute's
offset, dispatching on the value's type tag. -/
def setAttr (record : Record) (schema : Schema) (attrNum : Nat) (value : Value) : Record :=
  let off := attrOffset schema attrNum
  let data :=
    match value with
    | .VInt v => writeBytes record.data off (encInt4 v)
    | .VFloat b0 b1 b2 b3 => writeBytes record.data off [b0, b1, b2, b3]
    | .VBool b => writeBytes record.data off [if b then 1 else 0]
    | .VString s => writeBytes record.data off (storedString s (schema.typeLength.getD attrNum 0))
  { record with data := data }

/-- getAttr (record_mgr.c): read the attribute's bytes at its offset,
dispatching on the schema's type; a string is read as `typeLength` bytes
with a null terminator appended one past the end. -/
def getAttr (record : Record) (schema : Schema) (attrNum : Nat) : Value :=
  let off := attrOffset schema attrNum
  match schema.dataTypes.getD attrNum .DT_INT with
  | .DT_INT =>
      .VInt (decInt4 (record.data off) (record.data (off + 1)) (record.data (off + 2)) (record.data (off + 3)))
  | .DT_FLOAT =>
      .VFloat (record.data off) (record.data (off + 1)) (record.data (off + 2)) (record.data (off + 3))
  | .DT_BOOL => .VBool (record.data off != 0)
  | .DT_STRING =>
      .VString (readBytes record.data off (schema.typeLength.getD attrNum 0) ++ [0])

/-- A tiny concrete data page used by the witness scenarios: header
slotsUsed = 1 and slot 0's usage byte set to 1 (page size 16, record size 2,
slot capacity 4). -/
def witPage : Page := setSlotFlag (writeHeader zeroPage 1) 0 1

/-- A tiny concrete table for the witness scenarios: the catalog page plus
one data page with one used slot; numTuples 1, nextFreePage -1, record
size 2. -/
def witTable : TableState := ⟨[zeroPage, witPage], 1, -1, 2⟩

/-- The result of a concrete insert into the witness table (used by the
insert/get round-trip witness). -/
def witInsRes : RC × TableState × Record :=
  (insertRecord 16 witTable ⟨⟨0, 0⟩, fun _ => 9⟩).getD
    (RC_ERROR, witTable, ⟨⟨0, 0⟩, fun _ => 9⟩)

/-- One step of the write-back accounting scenario: pin a page, write bytes
through the handle, mark it dirty, unpin it. -/
def pinDirtyUnpin (pool : Pool) (pn : Int) (g : Page) : Pool :=
  (unpinPage (markDirty (writeThroughHandle (pinPage pool pn).2 pn g) pn).2 pn).2

/-- The write-back scenario after pinning, dirtying and unpinning pages
0, 1 and 2 on a fresh 3-frame FIFO pool over a one-page file. -/
def c4AfterThree : Pool :=
  pinDirtyUnpin (pinDirtyUnpin (pinDirtyUnpin
    (initBufferPool .RS_FIFO 3 [zeroPage]) 0 (fun _ => 7)) 1 (fun _ => 8)) 2 (fun _ => 9)

/-- The write-back scenario after the fourth pin (page 3), which must evict. -/
def c4Final : Pool := (pinPage c4AfterThree 3).2

/-- A pool reached by pinning pages 0, 1 and 2 on a fresh 3-frame pool
without unpinning: every frame is pinned. -/
def c3Pool : Pool :=
  (pinPage ((pinPage ((pinPage (initBufferPool .RS_FIFO 3 [zeroPage]) 0).2) 1).2) 2).2

/-- The victim-selection accumulator invariant: the running victim index is
non-negative and points at an unpinned frame. -/
def GoodAcc (frames : List Frame) (acc : Int × Int) : Prop :=
  0 ≤ acc.1 ∧ acc.1.toNat < frames.length ∧ (frames.getD acc.1.toNat default).fixCount = 0

/-- A well-formed data page: its slotsUsed header equals the number of
1-valued usage bytes within the slot capacity. -/
def PageOK (N : Nat) (pg : Page) : Prop :=
  readHeader pg = (flagCount pg N : Int)

/-- The strengthened table invariant carried through the reachability
induction of claim C2: the record size is the table's, the file has the
catalog page, nextFreePage is -1 or a data page number, the catalog page's
flag region contains no byte 1, every data page is well formed, and
numTuples equals the total count of 1-valued usage bytes over data pages. -/
def TableInv (pageSize recSize : Nat) (st : TableState) : Prop :=
  st.recordSize = recSize ∧
  1 ≤ st.pages.length ∧
  (st.nextFreePage = -1 ∨ 1 ≤ st.nextFreePage) ∧
  (∀ s, s < computeMaxSlots pageSize recSize →
    getSlotFlag (st.pages.getD 0 zeroPage) s ≠ 1) ∧
  (∀ p, 1 ≤ p → p < st.pages.length →
    PageOK (computeMaxSlots pageSize recSize) (st.pages.getD p zeroPage)) ∧
  st.numTuples = ((st.pages.drop 1).map fun pg =>
    ((flagCount pg (computeMaxSlots pageSize recSize) : Int))).sum

/-- A concrete insert into a freshly created table (catalog page all zeros),
used by the invariant witness: the reachable state after one insert. -/
def witReach : RC × TableState × Record :=
  (insertRecord 16 ⟨[zeroPage], 0, -1, 2⟩ ⟨⟨0, 0⟩, fun _ => 9⟩).getD
    (RC_ERROR, ⟨[zeroPage], 0, -1, 2⟩, ⟨⟨0, 0⟩, fun _ => 9⟩)

/- Helper lemmas about the byte-level primitives. -/

theorem writeBytes_apply_out (d : Page) (off : Nat) (src : List Nat) (i : Nat)
    (h : i < off ∨ off + src.length ≤ i) : writeBytes d off src i = d i := by
  simp only [writeBytes]
  split
  · omega
  · rfl

theorem writeBytes_apply_in (d : Page) (off : Nat) (src : List Nat) (i : Nat)
    (h1 : off ≤ i) (h2 : i < off + src.length) :
    writeBytes d off src i = src.getD (i - off) 0 := by
  simp only [writeBytes]
  split
  · rfl
  · omega

theorem readBytes_length (d : Page) (off n : Nat) : (readBytes d off n).length = n := by
  simp [readBytes]

theorem readBytes_congr (d1 d2 : Page) (off n : Nat)
    (h : ∀ i, i < n → d1 (off + i) = d2 (off + i)) :
    readBytes d1 off n = readBytes d2 off n := by
  simp only [readBytes]
  apply List.map_congr_left
  intro i hi
  exact h i (List.mem_range.mp hi)

theorem readBytes_writeBytes_same (d : Page) (off : Nat) (src : List Nat) :
    readBytes (writeBytes d off src) off src.length = src := by
  apply List.ext_getElem
  · simp [readBytes_length]
  · intro i h1 h2
    simp only [readBytes, List.getElem_map, List.getElem_range]
    rw [writeBytes_apply_in d off src (off + i) (by omega) (by simpa using h2)]
    simp [List.getD_eq_getElem?_getD, List.getElem?_eq_getElem h2]

theorem encInt4_length (v : Int) : (encInt4 v).length = 4 := by
  simp [encInt4]

theorem writeHeader_apply_ge (d : Page) (v : Int) (i : Nat) (h : 4 ≤ i) :
    writeHeader d v i = d i := by
  unfold writeHeader
  exact writeBytes_apply_out _ _ _ _ (Or.inr (by simp [encInt4_length]; omega))

theorem getSlotFlag_writeHeader (d : Page) (v : Int) (s : Nat) :
    getSlotFlag (writeHeader d v) s = getSlotFlag d s := by
  unfold getSlotFlag
  exact writeHeader_apply_ge d v (4 + s) (by omega)

theorem getSlotFlag_setSlotFlag_self (d : Page) (s v : Nat) :
    getSlotFlag (setSlotFlag d s v) s = v := by
  simp [getSlotFlag, setSlotFlag]

theorem getSlotFlag_setSlotFlag_ne (d : Page) (s v s' : Nat) (h : s' ≠ s) :
    getSlotFlag (setSlotFlag d s v) s' = getSlotFlag d s' := by
  simp only [getSlotFlag, setSlotFlag]
  rw [if_neg (by omega)]

theorem getSlotFlag_writeBytes_of_lt (d : Page) (off : Nat) (src : List Nat) (s : Nat)
    (h : 4 + s < off) : getSlotFlag (writeBytes d off src) s = getSlotFlag d s := by
  unfold getSlotFlag
  exact writeBytes_apply_out _ _ _ _ (Or.inl h)

theorem readHeader_writeBytes_of_ge (d : Page) (off : Nat) (src : List Nat) (h : 4 ≤ off) :
    readHeader (writeBytes d off src) = readHeader d := by
  unfold readHeader
  rw [writeBytes_apply_out _ _ _ _ (Or.inl (by omega)),
      writeBytes_apply_out _ _ _ _ (Or.inl (by omega)),
      writeBytes_apply_out _ _ _ _ (Or.inl (by omega)),
      writeBytes_apply_out _ _ _ _ (Or.inl (by omega))]

theorem readHeader_setSlotFlag (d : Page) (s v : Nat) :
    readHeader (setSlotFlag d s v) = readHeader d := by
  unfold readHeader setSlotFlag
  rw [if_neg (by omega), if_neg (by omega), if_neg (by omega), if_neg (by omega)]

theorem readHeader_writeHeader (d : Page) (v : Int)
    (h1 : -2147483648 ≤ v) (h2 : v < 2147483648) :
    readHeader (writeHeader d v) = v := by
  have hmod : (0 : Int) ≤ v % 4294967296 := Int.emod_nonneg v (by norm_num)
  have hmod2 : v % 4294967296 < 4294967296 := Int.emod_lt_of_pos v (by norm_num)
  have hn : ((v % 4294967296).toNat : Int) = v % 4294967296 := Int.toNat_of_nonneg hmod
  set n : Nat := (v % 4294967296).toNat with hndef
  have hnlt : n < 4294967296 := by omega
  have hcase : (v % 4294967296 = v ∧ 0 ≤ v) ∨ (v % 4294967296 = v + 4294967296 ∧ v < 0) := by
    rcases le_or_lt 0 v with hv | hv
    · exact Or.inl ⟨Int.emod_eq_of_lt hv (by omega), hv⟩
    · refine Or.inr ⟨?_, hv⟩
      have hsh : v % 4294967296 = (v + 4294967296) % 4294967296 := by omega
      rw [hsh]
      exact Int.emod_eq_of_lt (by omega) (by omega)
  have hb : ∀ i, i < 4 → writeHeader d v i
      = [n % 256, n / 256 % 256, n / 65536 % 256, n / 16777216 % 256].getD i 0 := by
    intro i hi
    unfold writeHeader
    rw [writeBytes_apply_in d 0 _ i (by omega) (by rw [encInt4_length]; omega)]
    simp [encInt4, hndef]
  unfold readHeader decInt4
  rw [hb 0 (by omega), hb 1 (by omega), hb 2 (by omega), hb 3 (by omega)]
  simp only [List.getD_cons_zero, List.getD_cons_succ]
  split <;> omega

theorem flagCount_congr (d1 d2 : Page) (N : Nat)
    (h : ∀ s, s < N → getSlotFlag d1 s = getSlotFlag d2 s) :
    flagCount d1 N = flagCount d2 N := by
  unfold flagCount
  congr 1
  apply Finset.filter_congr
  intro s hs
  rw [h s (Finset.mem_range.mp hs)]

theorem flagCount_le (d : Page) (N : Nat) : flagCount d N ≤ N := by
  unfold flagCount
  calc ((Finset.range N).filter fun s => getSlotFlag d s = 1).card
      ≤ (Finset.range N).card := Finset.card_filter_le _ _
    _ = N := Finset.card_range N

theorem flagCount_setSlotFlag_zero_to_one (d : Page) (N s : Nat)
    (hs : s < N) (h0 : getSlotFlag d s ≠ 1) :
    flagCount (setSlotFlag d s 1) N = flagCount d N + 1 := by
  unfold flagCount
  have hset : ((Finset.range N).filter fun t => getSlotFlag (setSlotFlag d s 1) t = 1)
      = insert s ((Finset.range N).filter fun t => getSlotFlag d t = 1) := by
    ext t
    simp only [Finset.mem_filter, Finset.mem_insert, Finset.mem_range]
    constructor
    · intro ⟨ht, hf⟩
      rcases eq_or_ne t s with h | h
      · exact Or.inl h
      · right
        rw [getSlotFlag_setSlotFlag_ne d s 1 t h] at hf
        exact ⟨ht, hf⟩
    · intro h
      rcases h with h | ⟨ht, hf⟩
      · subst h
        exact ⟨hs, getSlotFlag_setSlotFlag_self d t 1⟩
      · refine ⟨ht, ?_⟩
        rcases eq_or_ne t s with h | h
        · subst h; exact absurd hf h0
        · rw [getSlotFlag_setSlotFlag_ne d s 1 t h]; exact hf
  rw [hset, Finset.card_insert_of_not_mem]
  simp only [Finset.mem_filter, not_and]
  intro _
  exact h0

theorem flagCount_setSlotFlag_one_to_zero (d : Page) (N s : Nat)
    (hs : s < N) (h1 : getSlotFlag d s = 1) :
    flagCount (setSlotFlag d s 0) N + 1 = flagCount d N := by
  unfold flagCount
  have hset : ((Finset.range N).filter fun t => getSlotFlag d t = 1)
      = insert s ((Finset.range N).filter fun t => getSlotFlag (setSlotFlag d s 0) t = 1) := by
    ext t
    simp only [Finset.mem_filter, Finset.mem_insert, Finset.mem_range]
    constructor
    · intro ⟨ht, hf⟩
      rcases eq_or_ne t s with h | h
      · exact Or.inl h
      · right
        rw [getSlotFlag_setSlotFlag_ne d s 0 t h]
        exact ⟨ht, hf⟩
    · intro h
      rcases h with h | ⟨ht, hf⟩
      · subst h; exact ⟨hs, h1⟩
      · rcases eq_or_ne t s with h | h
        · subst h
          rw [getSlotFlag_setSlotFlag_self d t 0] at hf
          omega
        · rw [getSlotFlag_setSlotFlag_ne d s 0 t h] at hf
          exact ⟨ht, hf⟩
  rw [hset, Finset.card_insert_of_not_mem]
  simp only [Finset.mem_filter, not_and]
  intro _
  rw [getSlotFlag_setSlotFlag_self d s 0]
  omega

theorem getSlotFlag_zeroPage (s : Nat) : getSlotFlag zeroPage s = 0 := rfl

theorem readHeader_zeroPage : readHeader zeroPage = 0 := by
  unfold readHeader decInt4 zeroPage
  norm_num

theorem flagCount_zeroPage (N : Nat) : flagCount zeroPage N = 0 := by
  unfold flagCount
  rw [Finset.card_eq_zero, Finset.filter_eq_empty_iff]
  intro s _
  rw [getSlotFlag_zeroPage]
  omega

/- Lemmas about the file-as-list-of-pages operations. -/

theorem extendTo_length (ps : List Page) (p : Nat) :
    (extendTo ps p).length = max ps.length (p + 1) := by
  simp [extendTo]
  omega

theorem extendTo_of_lt (ps : List Page) (p : Nat) (h : p < ps.length) :
    extendTo ps p = ps := by
  unfold extendTo
  rw [show p + 1 - ps.length = 0 by omega]
  simp

theorem extendTo_getD_lt (ps : List Page) (p i : Nat) (h : i < ps.length) :
    (extendTo ps p).getD i zeroPage = ps.getD i zeroPage := by
  unfold extendTo
  rw [List.getD_eq_getElem?_getD, List.getD_eq_getElem?_getD,
      List.getElem?_append_left h]

theorem extendTo_getD_ge (ps : List Page) (p i : Nat) (h : ps.length ≤ i) :
    (extendTo ps p).getD i zeroPage = zeroPage := by
  unfold extendTo
  rw [List.getD_eq_getElem?_getD, List.getElem?_append_right h]
  rcases lt_or_le (i - ps.length) (p + 1 - ps.length) with hlt | hge
  · rw [List.getElem?_eq_getElem (by simpa using hlt)]
    simp
  · rw [List.getElem?_eq_none (by simpa using hge)]
    rfl

theorem getD_set_self (ps : List Page) (i : Nat) (pg : Page) (h : i < ps.length) :
    (ps.set i pg).getD i zeroPage = pg := by
  rw [List.getD_eq_getElem?_getD, List.getElem?_set_self (by omega)]
  rfl

theorem getD_set_ne (ps : List Page) (i j : Nat) (pg : Page) (h : j ≠ i) :
    (ps.set i pg).getD j zeroPage = ps.getD j zeroPage := by
  rw [List.getD_eq_getElem?_getD, List.getD_eq_getElem?_getD, List.getElem?_set_ne (by omega)]

theorem dropOne_set (ps : List Page) (p : Nat) (pg : Page) (h : 1 ≤ p) :
    (ps.set p pg).drop 1 = (ps.drop 1).set (p - 1) pg := by
  cases ps with
  | nil => simp
  | cons a t =>
      cases p with
      | zero => omega
      | succ q => simp

theorem sum_map_set (f : Page → Int) (l : List Page) (i : Nat) (x : Page) (h : i < l.length) :
    ((l.set i x).map f).sum = (l.map f).sum + f x - f (l.getD i zeroPage) := by
  induction l generalizing i with
  | nil => simp at h
  | cons a t ih =>
      cases i with
      | zero =>
          simp [List.getD_cons_zero]
          ring
      | succ j =>
          simp only [List.set_cons_succ, List.map_cons, List.sum_cons, List.getD_cons_succ]
          rw [ih j (by simpa using h)]
          ring

theorem sum_map_append (f : Page → Int) (l1 l2 : List Page) :
    ((l1 ++ l2).map f).sum = (l1.map f).sum + (l2.map f).sum := by
  rw [List.map_append, List.sum_append]

theorem sum_map_replicate_zero (f : Page → Int) (n : Nat) (h : f zeroPage = 0) :
    ((List.replicate n zeroPage).map f).sum = 0 := by
  induction n with
  | zero => simp
  | succ m ih => simp [List.replicate_succ, h, ih]

theorem dropOne_extendTo (ps : List Page) (p : Nat) (h : 1 ≤ ps.length) :
    (extendTo ps p).drop 1 = ps.drop 1 ++ List.replicate (p + 1 - ps.length) zeroPage := by
  unfold extendTo
  rw [List.drop_append_of_le_length h]

theorem sum_map_extendTo (f : Page → Int) (ps : List Page) (p : Nat)
    (h : 1 ≤ ps.length) (hz : f zeroPage = 0) :
    (((extendTo ps p).drop 1).map f).sum = ((ps.drop 1).map f).sum := by
  rw [dropOne_extendTo ps p h, sum_map_append, sum_map_replicate_zero f _ hz]
  ring

theorem flagCount_pos (d : Page) (N s : Nat) (hs : s < N) (h1 : getSlotFlag d s = 1) :
    1 ≤ flagCount d N := by
  unfold flagCount
  rw [Nat.one_le_iff_ne_zero, ← Nat.pos_iff_ne_zero, Finset.card_pos]
  exact ⟨s, Finset.mem_filter.mpr ⟨Finset.mem_range.mpr hs, h1⟩⟩

theorem computeMaxSlots_le (pageSize recSize : Nat) :
    computeMaxSlots pageSize recSize ≤ pageSize :=
  le_trans (Nat.div_le_self _ _) (Nat.sub_le _ _)

/-- Claim C10: for a RID whose page number lies at or beyond the file's end,
pinPage transparently extends the file with zeroed pages, so getRecord,
updateRecord and deleteRecord return the free-slot outcome (NoMoreTuples,
NonExistingRecord, ok respectively) rather than an argument-validation
error, leaving the file longer than before; and the buffer pool's pinPage
never fails for a non-negative page number, so a scan's page fetch never
observes a missing page. -/
theorem claimC10_beyond_eof (pageSize : Nat) :
    (∀ (st : TableState) (id : RID) (rec : Record), st.pages.length ≤ id.page →
       (getRecord pageSize st id rec).1 = RC_RM_NO_MORE_TUPLES ∧
       (getRecord pageSize st id rec).2.1.pages.length = id.page + 1 ∧
       st.pages.length < (getRecord pageSize st id rec).2.1.pages.length) ∧
    (∀ (st : TableState) (rec : Record), st.pages.length ≤ rec.id.page →
       (updateRecord pageSize st rec).1 = RC_READ_NON_EXISTING_PAGE ∧
       (updateRecord pageSize st rec).2.1.pages.length = rec.id.page + 1 ∧
       st.pages.length < (updateRecord pageSize st rec).2.1.pages.length) ∧
    (∀ (st : TableState) (id : RID), st.pages.length ≤ id.page →
       (deleteRecord pageSize st id).1 = RC_OK ∧
       (deleteRecord pageSize st id).2.pages.length = id.page + 1 ∧
       st.pages.length < (deleteRecord pageSize st id).2.pages.length) ∧
    (∀ (pool : Pool) (pn : Int), 0 ≤ pn → (pinPage pool pn).1 = RC_OK) := by
  have hzero : ∀ (ps : List Page) (p : Nat), ps.length ≤ p →
      (extendTo ps p).getD p zeroPage = zeroPage := fun ps p h => extendTo_getD_ge ps p p h
  have hlen : ∀ (ps : List Page) (p : Nat), ps.length ≤ p →
      (extendTo ps p).length = p + 1 := by
    intro ps p h
    rw [extendTo_length]
    omega
  refine ⟨?_, ?_, ?_, ?_⟩
  · intro st id rec h
    simp only [getRecord]
    rw [hzero st.pages id.page h, getSlotFlag_zeroPage, if_pos rfl]
    exact ⟨rfl, hlen st.pages id.page h, by rw [hlen st.pages id.page h]; omega⟩
  · intro st rec h
    simp only [updateRecord]
    rw [hzero st.pages rec.id.page h, getSlotFlag_zeroPage, if_pos rfl]
    exact ⟨rfl, hlen st.pages rec.id.page h, by rw [hlen st.pages rec.id.page h]; omega⟩
  · intro st id h
    simp only [deleteRecord]
    rw [hzero st.pages id.page h, getSlotFlag_zeroPage, if_neg (by omega)]
    exact ⟨rfl, hlen st.pages id.page h, by rw [hlen st.pages id.page h]; omega⟩
  · intro pool pn h
    unfold pinPage
    rw [if_neg (by omega)]
    cases hfp : findPageFrame pool.frames pn with
    | some i => simp [hfp]
    | none => simp [hfp]

/-- Witness for C10: a one-page table, a RID on page 3. -/
theorem claimC10_witness :
    (getRecord 16 ⟨[zeroPage], 0, -1, 2⟩ ⟨3, 0⟩ ⟨⟨0, 0⟩, zeroPage⟩).1 = RC_RM_NO_MORE_TUPLES ∧
    (updateRecord 16 ⟨[zeroPage], 0, -1, 2⟩ ⟨⟨3, 0⟩, zeroPage⟩).1 = RC_READ_NON_EXISTING_PAGE ∧
    (deleteRecord 16 ⟨[zeroPage], 0, -1, 2⟩ ⟨3, 0⟩).1 = RC_OK ∧
    (pinPage (initBufferPool .RS_FIFO 1 []) 0).1 = RC_OK :=
  ⟨((claimC10_beyond_eof 16).1 ⟨[zeroPage], 0, -1, 2⟩ ⟨3, 0⟩ ⟨⟨0, 0⟩, zeroPage⟩ (by decide)).1,
   ((claimC10_beyond_eof 16).2.1 ⟨[zeroPage], 0, -1, 2⟩ ⟨⟨3, 0⟩, zeroPage⟩ (by decide)).1,
   ((claimC10_beyond_eof 16).2.2.1 ⟨[zeroPage], 0, -1, 2⟩ ⟨3, 0⟩ (by decide)).1,
   (claimC10_beyond_eof 16).2.2.2 (initBufferPool .RS_FIFO 1 []) 0 (by decide)⟩

/-- Claim C7: updateRecord on a free slot returns NonExistingRecord (the
source uses RC_READ_NON_EXISTING_PAGE) and changes nothing; on a used slot
it returns ok, overwrites exactly the recordSize payload bytes of that slot,
leaves the usage array, the slotsUsed header, numTuples, nextFreePage, the
other slots and the other pages unchanged, and preserves the record's RID. -/
theorem claimC7_updateRecord_spec (pageSize : Nat) (st : TableState) (rec : Record)
    (hp : rec.id.page < st.pages.length)
    (hs : rec.id.slot < computeMaxSlots pageSize st.recordSize) :
    (getSlotFlag (st.pages.getD rec.id.page zeroPage) rec.id.slot = 0 →
       updateRecord pageSize st rec = (RC_READ_NON_EXISTING_PAGE, st, rec)) ∧
    (getSlotFlag (st.pages.getD rec.id.page zeroPage) rec.id.slot ≠ 0 →
       (updateRecord pageSize st rec).1 = RC_OK ∧
       (updateRecord pageSize st rec).2.2 = rec ∧
       (updateRecord pageSize st rec).2.2.id = rec.id ∧
       readBytes ((updateRecord pageSize st rec).2.1.pages.getD rec.id.page zeroPage)
           (4 + computeMaxSlots pageSize st.recordSize + rec.id.slot * st.recordSize)
           st.recordSize
         = readBytes rec.data 0 st.recordSize ∧
       (∀ s, s < computeMaxSlots pageSize st.recordSize →
          getSlotFlag ((updateRecord pageSize st rec).2.1.pages.getD rec.id.page zeroPage) s
            = getSlotFlag (st.pages.getD rec.id.page zeroPage) s) ∧
       readHeader ((updateRecord pageSize st rec).2.1.pages.getD rec.id.page zeroPage)
         = readHeader (st.pages.getD rec.id.page zeroPage) ∧
       (∀ s, s < computeMaxSlots pageSize st.recordSize → s ≠ rec.id.slot →
          readBytes ((updateRecord pageSize st rec).2.1.pages.getD rec.id.page zeroPage)
              (4 + computeMaxSlots pageSize st.recordSize + s * st.recordSize) st.recordSize
            = readBytes (st.pages.getD rec.id.page zeroPage)
              (4 + computeMaxSlots pageSize st.recordSize + s * st.recordSize) st.recordSize) ∧
       (updateRecord pageSize st rec).2.1.numTuples = st.numTuples ∧
       (updateRecord pageSize st rec).2.1.nextFreePage = st.nextFreePage ∧
       (updateRecord pageSize st rec).2.1.recordSize = st.recordSize ∧
       (updateRecord pageSize st rec).2.1.pages.length = st.pages.length ∧
       (∀ q, q < st.pages.length → q ≠ rec.id.page →
          (updateRecord pageSize st rec).2.1.pages.getD q zeroPage
            = st.pages.getD q zeroPage)) := by
  have hext : extendTo st.pages rec.id.page = st.pages := extendTo_of_lt _ _ hp
  constructor
  · intro h0
    simp only [updateRecord, hext]
    rw [if_pos h0]
  · intro h1
    simp only [updateRecord, hext]
    rw [if_neg h1]
    set N := computeMaxSlots pageSize st.recordSize with hN
    set R := st.recordSize with hR
    set pg := st.pages.getD rec.id.page zeroPage with hpg
    set src := readBytes rec.data 0 R with hsrc
    have hsrclen : src.length = R := readBytes_length _ _ _
    set pg' := writeBytes pg (4 + N + rec.id.slot * R) src with hpg'
    have hget : (st.pages.set rec.id.page pg').getD rec.id.page zeroPage = pg' :=
      getD_set_self _ _ _ hp
    simp only [hget]
    refine ⟨trivial, trivial, trivial, ?_, ?_, ?_, ?_, trivial, trivial, trivial, by simp, ?_⟩
    · rw [show readBytes pg' (4 + N + rec.id.slot * R) R
            = readBytes pg' (4 + N + rec.id.slot * R) src.length by rw [hsrclen]]
      exact readBytes_writeBytes_same pg _ src
    · intro s hsN
      exact getSlotFlag_writeBytes_of_lt pg _ src s (by omega)
    · exact readHeader_writeBytes_of_ge pg _ src (by omega)
    · intro s hsN hne
      apply readBytes_congr
      intro i hi
      apply writeBytes_apply_out
      rcases lt_or_gt_of_ne hne with hlt | hgt
      · left
        have hmul : (s + 1) * R ≤ rec.id.slot * R := Nat.mul_le_mul_right R hlt
        have hsm : (s + 1) * R = s * R + R := Nat.succ_mul s R
        omega
      · right
        have hmul : (rec.id.slot + 1) * R ≤ s * R := Nat.mul_le_mul_right R hgt
        have hsm : (rec.id.slot + 1) * R = rec.id.slot * R + R := Nat.succ_mul rec.id.slot R
        omega
    · intro q hq hqne
      exact getD_set_ne _ _ _ _ hqne

/-- Witness for C7: updating the used slot (1,0) succeeds and stores the new
payload; updating the free slot (1,1) is rejected and changes nothing. -/
theorem claimC7_witness :
    updateRecord 16 witTable ⟨⟨1, 1⟩, fun _ => 9⟩
      = (RC_READ_NON_EXISTING_PAGE, witTable, ⟨⟨1, 1⟩, fun _ => 9⟩) ∧
    (updateRecord 16 witTable ⟨⟨1, 0⟩, fun _ => 9⟩).1 = RC_OK ∧
    readBytes ((updateRecord 16 witTable ⟨⟨1, 0⟩, fun _ => 9⟩).2.1.pages.getD 1 zeroPage)
      (4 + 4 + 0 * 2) 2 = [9, 9] := by
  refine ⟨(claimC7_updateRecord_spec 16 witTable ⟨⟨1, 1⟩, fun _ => 9⟩
            (by decide) (by decide)).1 (by decide),
          ((claimC7_updateRecord_spec 16 witTable ⟨⟨1, 0⟩, fun _ => 9⟩
            (by decide) (by decide)).2 (by decide)).1, ?_⟩
  have h := ((claimC7_updateRecord_spec 16 witTable ⟨⟨1, 0⟩, fun _ => 9⟩
    (by decide) (by decide)).2 (by decide)).2.2.2.1
  rw [show (4 + 4 + 0 * 2 : Nat)
        = 4 + computeMaxSlots 16 witTable.recordSize + 0 * witTable.recordSize by decide]
  rw [show (2 : Nat) = witTable.recordSize by decide]
  rw [h]
  decide

/-- Claim C5: deleteRecord on a used slot (usage byte 1) clears the byte,
decrements the page's slotsUsed header and the table's numTuples, and sets
nextFreePage to the RID's page exactly when the page went from full to
not-full (old slotsUsed = capacity); deleteRecord on a slot that is not in
use is a silent no-op returning ok.  The header hypothesis is the table
invariant (claim C2) for the touched page. -/
theorem claimC5_deleteRecord_spec (pageSize : Nat) (st : TableState) (id : RID)
    (hps : pageSize < 2147483648)
    (hp : id.page < st.pages.length)
    (hs : id.slot < computeMaxSlots pageSize st.recordSize)
    (hwf : readHeader (st.pages.getD id.page zeroPage)
      = (flagCount (st.pages.getD id.page zeroPage) (computeMaxSlots pageSize st.recordSize) : Int)) :
    (deleteRecord pageSize st id).1 = RC_OK ∧
    (getSlotFlag (st.pages.getD id.page zeroPage) id.slot ≠ 1 →
       (deleteRecord pageSize st id).2 = st) ∧
    (getSlotFlag (st.pages.getD id.page zeroPage) id.slot = 1 →
       getSlotFlag ((deleteRecord pageSize st id).2.pages.getD id.page zeroPage) id.slot = 0 ∧
       readHeader ((deleteRecord pageSize st id).2.pages.getD id.page zeroPage)
         = readHeader (st.pages.getD id.page zeroPage) - 1 ∧
       (deleteRecord pageSize st id).2.numTuples = st.numTuples - 1 ∧
       (deleteRecord pageSize st id).2.nextFreePage
         = (if readHeader (st.pages.getD id.page zeroPage)
              = (computeMaxSlots pageSize st.recordSize : Int)
            then (id.page : Int) else st.nextFreePage) ∧
       (deleteRecord pageSize st id).2.pages.length = st.pages.length) := by
  have hext : extendTo st.pages id.page = st.pages := extendTo_of_lt _ _ hp
  set N := computeMaxSlots pageSize st.recordSize with hN
  set pg := st.pages.getD id.page zeroPage with hpg
  refine ⟨?_, ?_, ?_⟩
  · simp only [deleteRecord, hext]
    split
    · rfl
    · rfl
  · intro h1
    simp only [deleteRecord, hext, ← hpg]
    rw [if_neg (by omega)]
  · intro h1
    have hfc : 1 ≤ flagCount pg N := flagCount_pos pg N id.slot hs h1
    have hfcle : flagCount pg N ≤ N := flagCount_le pg N
    have hNle : N ≤ pageSize := computeMaxSlots_le pageSize st.recordSize
    simp only [deleteRecord, hext, ← hpg, ← hN]
    rw [if_pos h1]
    have hget : ((st.pages.set id.page
        (writeHeader (setSlotFlag pg id.slot 0) (readHeader pg - 1))).getD id.page zeroPage)
        = writeHeader (setSlotFlag pg id.slot 0) (readHeader pg - 1) :=
      getD_set_self _ _ _ hp
    have hdr : readHeader (writeHeader (setSlotFlag pg id.slot 0) (readHeader pg - 1))
        = readHeader pg - 1 := by
      apply readHeader_writeHeader
      · omega
      · omega
    refine ⟨?_, ?_, rfl, ?_, by simp⟩
    · simp only [hget]
      rw [getSlotFlag_writeHeader, getSlotFlag_setSlotFlag_self]
    · simp only [hget]
      exact hdr
    · show (if readHeader pg - 1 = (N : Int) - 1 then (id.page : Int) else st.nextFreePage)
        = if readHeader pg = (N : Int) then (id.page : Int) else st.nextFreePage
      simp only [sub_left_inj]

/-- Witness for C5: deleting the used slot (1,0) of the one-record table
returns ok, clears the usage byte, and decrements the counters; deleting
the free slot (1,1) leaves the state unchanged. -/
theorem claimC5_witness :
    (deleteRecord 16 witTable ⟨1, 0⟩).1 = RC_OK ∧
    getSlotFlag ((deleteRecord 16 witTable ⟨1, 0⟩).2.pages.getD 1 zeroPage) 0 = 0 ∧
    (deleteRecord 16 witTable ⟨1, 0⟩).2.numTuples = 0 ∧
    (deleteRecord 16 witTable ⟨1, 0⟩).2.nextFreePage = -1 ∧
    (deleteRecord 16 witTable ⟨1, 1⟩).2 = witTable := by
  have h := claimC5_deleteRecord_spec 16 witTable ⟨1, 0⟩ (by decide) (by decide)
    (by decide) (by decide)
  have h2 := claimC5_deleteRecord_spec 16 witTable ⟨1, 1⟩ (by decide) (by decide)
    (by decide) (by decide)
  have hmain := h.2.2 (by decide)
  refine ⟨h.1, hmain.1, hmain.2.2.1, ?_, h2.2.1 (by decide)⟩
  have hnf := hmain.2.2.2.1
  rw [hnf]
  decide

/-- Counterexample to C6 as stated: in a table with slot capacity 4, page 1
holds exactly one used record (slotsUsed = 1); deleting it takes slotsUsed
from 1 to 0, yet nextFreePage stays -1 instead of becoming 1, because the
source only updates nextFreePage when the decremented count equals
capacity - 1. -/
theorem claimC6_counterexample :
    computeMaxSlots 16 witTable.recordSize = 4 ∧
    readHeader (witTable.pages.getD 1 zeroPage) = 1 ∧
    getSlotFlag (witTable.pages.getD 1 zeroPage) 0 = 1 ∧
    readHeader ((deleteRecord 16 witTable ⟨1, 0⟩).2.pages.getD 1 zeroPage) = 0 ∧
    witTable.nextFreePage = -1 ∧
    (deleteRecord 16 witTable ⟨1, 0⟩).2.nextFreePage = -1 ∧
    ¬ (deleteRecord 16 witTable ⟨1, 0⟩).2.nextFreePage = 1 := by decide

/-- Claim C6 amended: the delete that takes a page's slotsUsed from 1 to 0
sets nextFreePage to that page only when the slot capacity is 1 (the code
updates nextFreePage exactly on a full-to-not-full transition); otherwise
nextFreePage is left unchanged. -/
theorem claimC6_last_slot_delete (pageSize : Nat) (st : TableState) (id : RID)
    (hp : id.page < st.pages.length)
    (h1 : getSlotFlag (st.pages.getD id.page zeroPage) id.slot = 1)
    (hone : readHeader (st.pages.getD id.page zeroPage) = 1) :
    (deleteRecord pageSize st id).2.nextFreePage
      = if computeMaxSlots pageSize st.recordSize = 1 then (id.page : Int)
        else st.nextFreePage := by
  have hext : extendTo st.pages id.page = st.pages := extendTo_of_lt _ _ hp
  set N := computeMaxSlots pageSize st.recordSize with hN
  set pg := st.pages.getD id.page zeroPage with hpg
  simp only [deleteRecord, hext, ← hpg, ← hN]
  rw [if_pos h1]
  show (if readHeader pg - 1 = (N : Int) - 1 then (id.page : Int) else st.nextFreePage)
    = if N = 1 then (id.page : Int) else st.nextFreePage
  rw [hone]
  split_ifs with hc1 hc2
  · rfl
  · omega
  · omega
  · rfl

/-- Witness for the amended C6: in the capacity-4 table, the 1-to-0 delete
leaves nextFreePage at -1. -/
theorem claimC6_witness :
    (deleteRecord 16 witTable ⟨1, 0⟩).2.nextFreePage = -1 := by
  have h := claimC6_last_slot_delete 16 witTable ⟨1, 0⟩ (by decide) (by decide) (by decide)
  rw [h]
  decide

theorem findFreeSlot_some (d : Page) (N s : Nat) (h : findFreeSlot d N = some s) :
    s < N ∧ getSlotFlag d s = 0 := by
  unfold findFreeSlot at h
  have hmem := List.mem_of_find?_eq_some h
  have hpred := List.find?_some h
  constructor
  · exact List.mem_range.mp hmem
  · simpa using hpred

/-- The shape of a successful insert: it returns ok, leaves the record's
payload buffer untouched, assigns a RID with an in-capacity slot on an
existing page, and the stored page has the slot's usage byte set to 1 and
the record's bytes in the slot's payload region. -/
theorem insertRecordAux_ok (pageSize : Nat) (fuel : Nat) (st : TableState) (rec : Record)
    (res : RC × TableState × Record)
    (h : insertRecordAux pageSize fuel st rec = some res) :
    res.1 = RC_OK ∧
    res.2.2.data = rec.data ∧
    res.2.1.recordSize = st.recordSize ∧
    res.2.2.id.slot < computeMaxSlots pageSize st.recordSize ∧
    res.2.2.id.page < res.2.1.pages.length ∧
    getSlotFlag (res.2.1.pages.getD res.2.2.id.page zeroPage) res.2.2.id.slot = 1 ∧
    readBytes (res.2.1.pages.getD res.2.2.id.page zeroPage)
      (4 + computeMaxSlots pageSize st.recordSize + res.2.2.id.slot * st.recordSize)
      st.recordSize = readBytes rec.data 0 st.recordSize := by
  induction fuel generalizing st with
  | zero => exact absurd h (by simp [insertRecordAux])
  | succ fuel ih =>
      rw [insertRecordAux] at h
      set st1 := if st.nextFreePage < 1 then
          { st with
            pages := (extendTo st.pages st.pages.length).set st.pages.length (writeHeader zeroPage 0),
            nextFreePage := (st.pages.length : Int) }
        else st with hst1
      have hrs1 : st1.recordSize = st.recordSize := by
        rw [hst1]
        split <;> rfl
      simp only [← hst1, hrs1] at h
      set pageNum := st1.nextFreePage.toNat with hpn
      set ps2 := extendTo st1.pages pageNum with hps2
      set data := ps2.getD pageNum zeroPage with hdata
      cases hfs : findFreeSlot data (computeMaxSlots pageSize st.recordSize) with
      | none =>
          simp only [hfs] at h
          exact ih ⟨ps2, st1.numTuples, -1, st.recordSize⟩ h
      | some freeSlot =>
          simp only [hfs] at h
          obtain ⟨hsN, hs0⟩ := findFreeSlot_some data _ freeSlot hfs
          set N := computeMaxSlots pageSize st.recordSize with hN
          set R := st.recordSize with hR
          set src := readBytes rec.data 0 R with hsrc
          have hsrclen : src.length = R := readBytes_length _ _ _
          set data1 := writeBytes data (4 + N + freeSlot * R) src with hdata1
          set data2 := setSlotFlag data1 freeSlot 1 with hdata2
          set data3 := writeHeader data2 (readHeader data + 1) with hdata3
          have hres : res = (RC_OK,
              { pages := ps2.set pageNum data3,
                numTuples := st1.numTuples + 1,
                nextFreePage := if readHeader data + 1 = (N : Int) then -1 else (pageNum : Int),
                recordSize := R },
              { rec with id := ⟨pageNum, freeSlot⟩ }) := by
            exact (Option.some_inj.mp h).symm
          subst hres
          have hlt : pageNum < ps2.length := by
            rw [hps2, extendTo_length]
            omega
          have hget : (ps2.set pageNum data3).getD pageNum zeroPage = data3 :=
            getD_set_self _ _ _ hlt
          refine ⟨rfl, rfl, rfl, hsN, ?_, ?_, ?_⟩
          · simpa using hlt
          · simp only [hget, hdata3, hdata2]
            rw [getSlotFlag_writeHeader, getSlotFlag_setSlotFlag_self]
          · simp only [hget]
            have h3 : readBytes data3 (4 + N + freeSlot * R) R
                = readBytes data2 (4 + N + freeSlot * R) R := by
              apply readBytes_congr
              intro i hi
              rw [hdata3]
              exact writeHeader_apply_ge _ _ _ (by omega)
            have h2 : readBytes data2 (4 + N + freeSlot * R) R
                = readBytes data1 (4 + N + freeSlot * R) R := by
              apply readBytes_congr
              intro i hi
              rw [hdata2]
              show setSlotFlag data1 freeSlot 1 (4 + N + freeSlot * R + i) = _
              unfold setSlotFlag
              rw [if_neg (by omega)]
            rw [h3, h2, hdata1,
              show readBytes (writeBytes data (4 + N + freeSlot * R) src) (4 + N + freeSlot * R) R
                = readBytes (writeBytes data (4 + N + freeSlot * R) src) (4 + N + freeSlot * R)
                    src.length by rw [hsrclen]]
            exact readBytes_writeBytes_same data _ src

/-- Claim C1: after insertRecord returns ok with assigned RID r, getRecord(r)
returns ok, copies a payload byte-equal to the inserted record's bytes into
the output record, and sets the output record's id to r. -/
theorem claimC1_insert_get (pageSize : Nat) (st : TableState) (rec out : Record)
    (res : RC × TableState × Record)
    (h : insertRecord pageSize st rec = some res) :
    res.1 = RC_OK ∧
    (getRecord pageSize res.2.1 res.2.2.id out).1 = RC_OK ∧
    readBytes (getRecord pageSize res.2.1 res.2.2.id out).2.2.data 0 st.recordSize
      = readBytes rec.data 0 st.recordSize ∧
    (getRecord pageSize res.2.1 res.2.2.id out).2.2.id = res.2.2.id := by
  obtain ⟨hrc, hdata, hrs, hsN, hplen, hflag, hpayload⟩ :=
    insertRecordAux_ok pageSize 2 st rec res h
  have hext : extendTo res.2.1.pages res.2.2.id.page = res.2.1.pages :=
    extendTo_of_lt _ _ hplen
  simp only [getRecord, hext]
  rw [if_neg (by rw [hflag]; omega)]
  refine ⟨hrc, rfl, ?_, rfl⟩
  rw [show readBytes
        (writeBytes out.data 0 (readBytes (res.2.1.pages.getD res.2.2.id.page zeroPage)
          (4 + computeMaxSlots pageSize res.2.1.recordSize + res.2.2.id.slot * res.2.1.recordSize)
          res.2.1.recordSize)) 0 st.recordSize
      = readBytes
        (writeBytes out.data 0 (readBytes (res.2.1.pages.getD res.2.2.id.page zeroPage)
          (4 + computeMaxSlots pageSize res.2.1.recordSize + res.2.2.id.slot * res.2.1.recordSize)
          res.2.1.recordSize)) 0
          (readBytes (res.2.1.pages.getD res.2.2.id.page zeroPage)
          (4 + computeMaxSlots pageSize res.2.1.recordSize + res.2.2.id.slot * res.2.1.recordSize)
          res.2.1.recordSize).length by rw [readBytes_length, hrs]]
  rw [readBytes_writeBytes_same]
  rw [hrs]
  exact hpayload

/-- Witness for C1: a concrete insert of the payload byte 9 into the witness
table followed by a getRecord of the assigned RID. -/
theorem claimC1_witness :
    (getRecord 16 witInsRes.2.1 witInsRes.2.2.id ⟨⟨0, 0⟩, zeroPage⟩).1 = RC_OK ∧
    readBytes (getRecord 16 witInsRes.2.1 witInsRes.2.2.id ⟨⟨0, 0⟩, zeroPage⟩).2.2.data 0 2
      = [9, 9] := by
  have h : insertRecord 16 witTable ⟨⟨0, 0⟩, fun _ => 9⟩ = some witInsRes := rfl
  have hc := claimC1_insert_get 16 witTable ⟨⟨0, 0⟩, fun _ => 9⟩ ⟨⟨0, 0⟩, zeroPage⟩ witInsRes h
  refine ⟨hc.2.1, ?_⟩
  rw [show (2 : Nat) = witTable.recordSize from rfl, hc.2.2.1]
  decide

theorem decInt4_writeBytes_encInt4 (d : Page) (off : Nat) (v : Int)
    (h1 : -2147483648 ≤ v) (h2 : v < 2147483648) :
    decInt4 (writeBytes d off (encInt4 v) off) (writeBytes d off (encInt4 v) (off + 1))
      (writeBytes d off (encInt4 v) (off + 2)) (writeBytes d off (encInt4 v) (off + 3)) = v := by
  have hmod : (0 : Int) ≤ v % 4294967296 := Int.emod_nonneg v (by norm_num)
  have hmod2 : v % 4294967296 < 4294967296 := Int.emod_lt_of_pos v (by norm_num)
  have hn : ((v % 4294967296).toNat : Int) = v % 4294967296 := Int.toNat_of_nonneg hmod
  set n : Nat := (v % 4294967296).toNat with hndef
  have hnlt : n < 4294967296 := by omega
  have hcase : (v % 4294967296 = v ∧ 0 ≤ v) ∨ (v % 4294967296 = v + 4294967296 ∧ v < 0) := by
    rcases le_or_lt 0 v with hv | hv
    · exact Or.inl ⟨Int.emod_eq_of_lt hv (by omega), hv⟩
    · refine Or.inr ⟨?_, hv⟩
      have hsh : v % 4294967296 = (v + 4294967296) % 4294967296 := by omega
      rw [hsh]
      exact Int.emod_eq_of_lt (by omega) (by omega)
  have hb : ∀ i, i < 4 → writeBytes d off (encInt4 v) (off + i)
      = [n % 256, n / 256 % 256, n / 65536 % 256, n / 16777216 % 256].getD i 0 := by
    intro i hi
    rw [writeBytes_apply_in d off _ (off + i) (by omega) (by rw [encInt4_length]; omega)]
    rw [show off + i - off = i by omega]
    simp [encInt4, hndef]
  have hb0 : writeBytes d off (encInt4 v) off = n % 256 := by
    have := hb 0 (by omega)
    rw [show off + 0 = off by omega] at this
    simpa using this
  rw [hb0, hb 1 (by omega), hb 2 (by omega), hb 3 (by omega)]
  simp only [List.getD_cons_zero, List.getD_cons_succ, decInt4]
  split <;> omega

theorem takeWhile_ne_zero_eq (s : List Nat) (h : ∀ c ∈ s, c ≠ 0) :
    (s.takeWhile fun b => b != 0) = s := by
  induction s with
  | nil => rfl
  | cons a t ih =>
      rw [List.takeWhile_cons, if_pos (by simpa using h a (by simp))]
      rw [ih (fun c hc => h c (by simp [hc]))]

/-- Claim C9: setAttr followed by getAttr on the same attribute returns an
equal value up to type-specific semantics: INT (within the 32-bit range),
FLOAT (bit pattern) and BOOL round-trip exactly; a string is stored
truncated to typeLength if strictly longer, zero-padded if shorter, and is
read back as the stored bytes null-terminated one past typeLength. -/
theorem claimC9_setAttr_getAttr (schema : Schema) (rec : Record) (attrNum : Nat) :
    (∀ v : Int, schema.dataTypes.getD attrNum .DT_INT = .DT_INT →
       -2147483648 ≤ v → v < 2147483648 →
       getAttr (setAttr rec schema attrNum (.VInt v)) schema attrNum = .VInt v) ∧
    (∀ b0 b1 b2 b3 : Nat, schema.dataTypes.getD attrNum .DT_INT = .DT_FLOAT →
       getAttr (setAttr rec schema attrNum (.VFloat b0 b1 b2 b3)) schema attrNum
         = .VFloat b0 b1 b2 b3) ∧
    (∀ b : Bool, schema.dataTypes.getD attrNum .DT_INT = .DT_BOOL →
       getAttr (setAttr rec schema attrNum (.VBool b)) schema attrNum = .VBool b) ∧
    (∀ s : List Nat, schema.dataTypes.getD attrNum .DT_INT = .DT_STRING →
       (∀ c ∈ s, c ≠ 0) →
       getAttr (setAttr rec schema attrNum (.VString s)) schema attrNum
         = .VString (s.take (schema.typeLength.getD attrNum 0)
             ++ List.replicate
                 (schema.typeLength.getD attrNum 0 - (s.take (schema.typeLength.getD attrNum 0)).length) 0
             ++ [0])) := by
  set off := attrOffset schema attrNum with hoff
  refine ⟨?_, ?_, ?_, ?_⟩
  · intro v hdt hv1 hv2
    simp only [getAttr, setAttr, hdt]
    rw [decInt4_writeBytes_encInt4 rec.data off v hv1 hv2]
  · intro b0 b1 b2 b3 hdt
    simp only [getAttr, setAttr, hdt]
    rw [writeBytes_apply_in _ _ _ _ (by omega) (by simp),
        writeBytes_apply_in _ _ _ _ (by omega) (by simp),
        writeBytes_apply_in _ _ _ _ (by omega) (by simp),
        writeBytes_apply_in _ _ _ _ (by omega) (by simp)]
    simp [show off - off = 0 by omega, show off + 1 - off = 1 by omega,
      show off + 2 - off = 2 by omega, show off + 3 - off = 3 by omega]
  · intro b hdt
    simp only [getAttr, setAttr, hdt]
    rw [writeBytes_apply_in _ _ _ _ (by omega) (by simp)]
    rw [show off - off = 0 by omega]
    cases b <;> simp
  · intro s hdt hnz
    simp only [getAttr, setAttr, hdt]
    set len := schema.typeLength.getD attrNum 0 with hlen
    have hst : storedString s len = s.take len ++ List.replicate (len - (s.take len).length) 0 := by
      unfold storedString
      rw [takeWhile_ne_zero_eq s hnz]
    have hstlen : (storedString s len).length = len := by
      rw [hst]
      simp
    rw [show readBytes (writeBytes rec.data off (storedString s len)) off len
        = readBytes (writeBytes rec.data off (storedString s len)) off
            (storedString s len).length by rw [hstlen]]
    rw [readBytes_writeBytes_same, hst]

/-- Witness for C9: concrete round trips through a two-attribute
(INT, STRING(3)) schema, a BOOL schema and a FLOAT schema; the four-byte
string "ABCD" is truncated to "ABC" and read back null-terminated. -/
theorem claimC9_witness :
    getAttr (setAttr ⟨⟨0, 0⟩, zeroPage⟩ ⟨2, [.DT_INT, .DT_STRING], [0, 3]⟩ 0 (.VInt 42))
        ⟨2, [.DT_INT, .DT_STRING], [0, 3]⟩ 0 = .VInt 42 ∧
    getAttr (setAttr ⟨⟨0, 0⟩, zeroPage⟩ ⟨2, [.DT_INT, .DT_STRING], [0, 3]⟩ 1
        (.VString [65, 66, 67, 68])) ⟨2, [.DT_INT, .DT_STRING], [0, 3]⟩ 1
      = .VString [65, 66, 67, 0] ∧
    getAttr (setAttr ⟨⟨0, 0⟩, zeroPage⟩ ⟨1, [.DT_BOOL], [0]⟩ 0 (.VBool true))
        ⟨1, [.DT_BOOL], [0]⟩ 0 = .VBool true ∧
    getAttr (setAttr ⟨⟨0, 0⟩, zeroPage⟩ ⟨1, [.DT_FLOAT], [0]⟩ 0 (.VFloat 63 128 0 0))
        ⟨1, [.DT_FLOAT], [0]⟩ 0 = .VFloat 63 128 0 0 := by
  refine ⟨(claimC9_setAttr_getAttr ⟨2, [.DT_INT, .DT_STRING], [0, 3]⟩ ⟨⟨0, 0⟩, zeroPage⟩ 0).1
            42 (by decide) (by decide) (by decide), ?_,
          (claimC9_setAttr_getAttr ⟨1, [.DT_BOOL], [0]⟩ ⟨⟨0, 0⟩, zeroPage⟩ 0).2.2.1
            true (by decide),
          (claimC9_setAttr_getAttr ⟨1, [.DT_FLOAT], [0]⟩ ⟨⟨0, 0⟩, zeroPage⟩ 0).2.1
            63 128 0 0 (by decide)⟩
  have h := (claimC9_setAttr_getAttr ⟨2, [.DT_INT, .DT_STRING], [0, 3]⟩ ⟨⟨0, 0⟩, zeroPage⟩ 1).2.2.2
    [65, 66, 67, 68] (by decide) (by decide)
  rw [h]
  decide

/-- Claim C4: on a fresh 3-frame FIFO pool, pinning pages 0, 1, 2, 3 in
order (marking each dirty and unpinning before the next pin) performs 4
reads and exactly 1 write, and the single write-back is page 0, the frame
evicted for page 3: after the fourth pin the frames hold pages 3, 1, 2,
pages 1 and 2 are still dirty in memory, and only page 0's bytes reached
the file. -/
theorem claimC4_writeback_accounting :
    c4AfterThree.numRead = 3 ∧ c4AfterThree.numWrite = 0 ∧
    c4Final.numRead = 4 ∧ c4Final.numWrite = 1 ∧
    getFrameContents c4Final = [3, 1, 2] ∧
    getDirtyFlags c4Final = [false, true, true] ∧
    getFixCounts c4Final = [1, 0, 0] ∧
    (c4Final.file.getD 0 zeroPage) 0 = 7 ∧
    (c4Final.file.getD 1 zeroPage) 0 = 0 ∧
    (c4Final.file.getD 2 zeroPage) 0 = 0 := by decide

theorem victimStep_good (frames : List Frame) (acc : Int × Int) (i : Nat)
    (hi : i < frames.length) (h : GoodAcc frames acc) :
    GoodAcc frames (victimStep frames acc i) := by
  simp only [victimStep]
  split
  · next hc => exact ⟨by omega, by simpa using hi, hc.1⟩
  · exact h

theorem victimFold_good (frames : List Frame) (l : List Nat) (acc : Int × Int)
    (hl : ∀ i ∈ l, i < frames.length)
    (h : GoodAcc frames acc ∨
      ∃ i ∈ l, (frames.getD i default).fixCount = 0 ∧
        ((frames.getD i default).usage : Int) < acc.2) :
    GoodAcc frames (l.foldl (victimStep frames) acc) := by
  induction l generalizing acc with
  | nil =>
      rcases h with h | ⟨i, hi, _⟩
      · exact h
      · exact absurd hi (List.not_mem_nil i)
  | cons a t ih =>
      rw [List.foldl_cons]
      have ha : a < frames.length := hl a (by simp)
      by_cases hc : (frames.getD a default).fixCount = 0 ∧
          ((frames.getD a default).usage : Int) < acc.2
      · apply ih _ (fun i hi => hl i (by simp [hi]))
        left
        simp only [victimStep]
        rw [if_pos hc]
        exact ⟨by omega, by simpa using ha, hc.1⟩
      · have hstep : victimStep frames acc a = acc := by
          simp only [victimStep]
          rw [if_neg hc]
        rw [hstep]
        apply ih _ (fun i hi => hl i (by simp [hi]))
        rcases h with h | ⟨i, hi, hfix, husage⟩
        · exact Or.inl h
        · rcases List.mem_cons.mp hi with rfl | hit
          · exact absurd ⟨hfix, husage⟩ hc
          · exact Or.inr ⟨i, hit, hfix, husage⟩

/-- Claim C3 amended: whenever at least one frame has pin count 0 (and a
usage counter below the C int sentinel 2147483647), findVictimFrame selects
a frame with pin count 0; but when every frame is pinned the source falls
back to frame index 0 regardless of its pin count, so the claim as stated
fails (see the counterexample). -/
theorem claimC3_victim_unpinned (frames : List Frame)
    (h : ∃ i, i < frames.length ∧ (frames.getD i default).fixCount = 0 ∧
      (frames.getD i default).usage < 2147483647) :
    (frames.getD (findVictimFrame frames) default).fixCount = 0 := by
  obtain ⟨i, hi, hfix, husage⟩ := h
  have hg : GoodAcc frames
      ((List.range frames.length).foldl (victimStep frames) (-1, 2147483647)) := by
    apply victimFold_good
    · intro j hj
      exact List.mem_range.mp hj
    · right
      refine ⟨i, List.mem_range.mpr hi, hfix, ?_⟩
      show ((frames.getD i default).usage : Int) < 2147483647
      exact_mod_cast husage
  simp only [findVictimFrame]
  rw [if_neg (by have h1 := hg.1; omega)]
  exact hg.2.2

/-- Counterexample to C3 as stated: with all three frames pinned (pages
0, 1, 2 pinned and never unpinned), the pin of page 3 must evict; no frame
is free, findVictimFrame falls back to frame 0 whose pin count is 1 > 0,
and the pin indeed replaces that pinned frame's page. -/
theorem claimC3_counterexample :
    findFreeFrame c3Pool.frames = none ∧
    getFixCounts c3Pool = [1, 1, 1] ∧
    findVictimFrame c3Pool.frames = 0 ∧
    (c3Pool.frames.getD 0 default).fixCount > 0 ∧
    (pinPage c3Pool 3).1 = RC_OK ∧
    getFrameContents (pinPage c3Pool 3).2 = [3, 1, 2] := by decide

/-- Witness for the amended C3: in the all-unpinned pool of the write-back
scenario, the selected victim has pin count 0. -/
theorem claimC3_witness :
    (c4AfterThree.frames.getD (findVictimFrame c4AfterThree.frames) default).fixCount = 0 :=
  claimC3_victim_unpinned c4AfterThree.frames ⟨0, by decide⟩

theorem getD_set_self_gen {α : Type} (l : List α) (i : Nat) (x d : α) (h : i < l.length) :
    (l.set i x).getD i d = x := by
  rw [List.getD_eq_getElem?_getD, List.getElem?_set_self (by omega)]
  rfl

theorem getD_set_ne_gen {α : Type} (l : List α) (i j : Nat) (x d : α) (h : j ≠ i) :
    (l.set i x).getD j d = l.getD j d := by
  rw [List.getD_eq_getElem?_getD, List.getD_eq_getElem?_getD, List.getElem?_set_ne (by omega)]

theorem set_oob {α : Type} (l : List α) (i : Nat) (x : α) (h : l.length ≤ i) :
    l.set i x = l :=
  List.set_eq_of_length_le h

theorem flushFrame_pointwise (pool : Pool) (a j : Nat) :
    (flushFrame pool a).frames.length = pool.frames.length ∧
    ((flushFrame pool a).frames.getD j default).pageNum
      = (pool.frames.getD j default).pageNum ∧
    ((flushFrame pool a).frames.getD j default).fixCount
      = (pool.frames.getD j default).fixCount ∧
    ((flushFrame pool a).frames.getD j default).data
      = (pool.frames.getD j default).data ∧
    (((flushFrame pool a).frames.getD j default).dirty = true →
      (pool.frames.getD j default).dirty = true) := by
  simp only [flushFrame]
  split
  · rcases lt_or_le a pool.frames.length with ha | ha
    · rcases eq_or_ne j a with rfl | hne
      · simp only [getD_set_self_gen _ _ _ _ ha]
        refine ⟨?_, ?_, ?_, ?_, ?_⟩ <;> simp
      · simp only [getD_set_ne_gen _ _ _ _ _ hne]
        refine ⟨?_, ?_, ?_, ?_, ?_⟩ <;> simp
    · rw [set_oob _ _ _ ha]
      exact ⟨rfl, rfl, rfl, rfl, fun hh => hh⟩
  · exact ⟨rfl, rfl, rfl, rfl, fun hh => hh⟩

theorem flushFold_preserves (l : List Nat) (pool : Pool) :
    (l.foldl flushFrame pool).frames.length = pool.frames.length ∧
    ∀ j, ((l.foldl flushFrame pool).frames.getD j default).pageNum
        = (pool.frames.getD j default).pageNum ∧
      ((l.foldl flushFrame pool).frames.getD j default).fixCount
        = (pool.frames.getD j default).fixCount ∧
      ((l.foldl flushFrame pool).frames.getD j default).data
        = (pool.frames.getD j default).data ∧
      (((l.foldl flushFrame pool).frames.getD j default).dirty = true →
        (pool.frames.getD j default).dirty = true) := by
  induction l generalizing pool with
  | nil => exact ⟨rfl, fun j => ⟨rfl, rfl, rfl, fun hh => hh⟩⟩
  | cons a t ih =>
      rw [List.foldl_cons]
      obtain ⟨ihlen, ihj⟩ := ih (flushFrame pool a)
      obtain ⟨slen, _⟩ := flushFrame_pointwise pool a 0
      refine ⟨by rw [ihlen, slen], fun j => ?_⟩
      obtain ⟨sp, sf, sd, sdi⟩ := (flushFrame_pointwise pool a j).2
      obtain ⟨tp, tf, td, tdi⟩ := ihj j
      exact ⟨by rw [tp, sp], by rw [tf, sf], by rw [td, sd], fun hh => sdi (tdi hh)⟩

theorem flushFrame_self_clears (pool : Pool) (i : Nat)
    (hfix : (pool.frames.getD i default).fixCount = 0) :
    ((flushFrame pool i).frames.getD i default).dirty = false := by
  simp only [flushFrame]
  split
  · next hcond =>
      rcases lt_or_le i pool.frames.length with hi | hi
      · rw [getD_set_self_gen _ _ _ _ hi]
      · exfalso
        have hdef : pool.frames.getD i default = default := by
          rw [List.getD_eq_getElem?_getD, List.getElem?_eq_none (by omega)]
          rfl
        rw [hdef] at hcond
        simp at hcond
  · next hcond =>
      by_cases hd : (pool.frames.getD i default).dirty = true
      · exact absurd ⟨hd, hfix⟩ hcond
      · simpa using hd

theorem flushFold_clears (l : List Nat) (pool : Pool) (i : Nat) (hi : i ∈ l)
    (hfix : (pool.frames.getD i default).fixCount = 0) :
    ((l.foldl flushFrame pool).frames.getD i default).dirty = false := by
  induction l generalizing pool with
  | nil => exact absurd hi (List.not_mem_nil i)
  | cons a t ih =>
      rw [List.foldl_cons]
      rcases List.mem_cons.mp hi with rfl | hit
      · have hclear := flushFrame_self_clears pool i hfix
        have himp := ((flushFold_preserves t (flushFrame pool i)).2 i).2.2.2
        by_cases hd : ((t.foldl flushFrame (flushFrame pool i)).frames.getD i default).dirty = true
        · have hcontr := himp hd
          rw [hclear] at hcontr
          exact absurd hcontr (by simp)
        · simpa using hd
      · apply ih _ hit
        rw [((flushFrame_pointwise pool a i).2).2.1]
        exact hfix

/-- Claim C8: when some frame is still pinned, shutdownBufferPool first runs
the flush (writing back every dirty frame with pin count 0 and clearing its
dirty bit), then fails with the pinned-pages error (the source's generic
RC_ERROR), and does not free or reset the pool: the returned state is
exactly the flushed pool, whose frames keep their page numbers, fix counts
and contents. -/
theorem claimC8_shutdown_pinned (pool : Pool)
    (h : ∃ i, i < pool.frames.length ∧ (pool.frames.getD i default).fixCount > 0) :
    (shutdownBufferPool pool).1 = RC_ERROR ∧
    (shutdownBufferPool pool).2 = some (forceFlushPool pool).2 ∧
    (forceFlushPool pool).2.frames.length = pool.frames.length ∧
    (∀ j, ((forceFlushPool pool).2.frames.getD j default).pageNum
        = (pool.frames.getD j default).pageNum ∧
      ((forceFlushPool pool).2.frames.getD j default).fixCount
        = (pool.frames.getD j default).fixCount ∧
      ((forceFlushPool pool).2.frames.getD j default).data
        = (pool.frames.getD j default).data) ∧
    (∀ i, i < pool.frames.length → (pool.frames.getD i default).fixCount = 0 →
      ((forceFlushPool pool).2.frames.getD i default).dirty = false) := by
  obtain ⟨i, hi, hfx⟩ := h
  obtain ⟨hlen, hptw⟩ :=
    flushFold_preserves (List.range pool.frames.length) pool
  have hany : ((forceFlushPool pool).2.frames.any fun f => f.fixCount > 0) = true := by
    have hlt : i < (forceFlushPool pool).2.frames.length := by
      show i < ((List.range pool.frames.length).foldl flushFrame pool).frames.length
      omega
    have hgd : (forceFlushPool pool).2.frames.getD i default
        = (forceFlushPool pool).2.frames.get ⟨i, hlt⟩ := by
      rw [List.getD_eq_getElem?_getD, List.getElem?_eq_getElem hlt]
      rfl
    rw [List.any_eq_true]
    refine ⟨(forceFlushPool pool).2.frames.get ⟨i, hlt⟩, List.get_mem _ _ hlt, ?_⟩
    simp only [decide_eq_true_eq]
    rw [← hgd]
    have hfcount := (hptw i).2.1
    show 0 < (((List.range pool.frames.length).foldl flushFrame pool).frames.getD i default).fixCount
    omega
  refine ⟨?_, ?_, hlen, fun j => ⟨(hptw j).1, (hptw j).2.1, (hptw j).2.2.1⟩, ?_⟩
  · simp only [shutdownBufferPool]
    rw [if_pos hany]
  · simp only [shutdownBufferPool]
    rw [if_pos hany]
  · intro k hk hkfix
    exact flushFold_clears (List.range pool.frames.length) pool k (List.mem_range.mpr hk) hkfix

/-- Witness for C8: shutting down the all-pinned three-frame pool fails with
the error code and leaves the three frames (still holding pages 0, 1, 2
with pin count 1) alive. -/
theorem claimC8_witness :
    (shutdownBufferPool c3Pool).1 = RC_ERROR ∧
    (shutdownBufferPool c3Pool).2 = some (forceFlushPool c3Pool).2 ∧
    (forceFlushPool c3Pool).2.frames.length = 3 ∧
    ((forceFlushPool c3Pool).2.frames.getD 0 default).pageNum = 0 ∧
    ((forceFlushPool c3Pool).2.frames.getD 0 default).fixCount = 1 := by
  have h := claimC8_shutdown_pinned c3Pool ⟨0, by decide⟩
  refine ⟨h.1, h.2.1, ?_, ?_, ?_⟩
  · rw [h.2.2.1]
    decide
  · rw [(h.2.2.2.1 0).1]
    decide
  · rw [(h.2.2.2.1 0).2.1]
    decide

theorem pageOK_zeroPage (N : Nat) : PageOK N zeroPage := by
  unfold PageOK
  rw [readHeader_zeroPage, flagCount_zeroPage]
  rfl

theorem pageOK_newDataPage (N : Nat) : PageOK N (writeHeader zeroPage 0) ∧
    flagCount (writeHeader zeroPage 0) N = 0 := by
  have hfc : flagCount (writeHeader zeroPage 0) N = 0 := by
    rw [flagCount_congr (writeHeader zeroPage 0) zeroPage N
      (fun s _ => getSlotFlag_writeHeader zeroPage 0 s), flagCount_zeroPage]
  refine ⟨?_, hfc⟩
  unfold PageOK
  rw [readHeader_writeHeader zeroPage 0 (by norm_num) (by norm_num), hfc]
  rfl

theorem getD_dropOne (ps : List Page) (p : Nat) (h : 1 ≤ p) :
    (ps.drop 1).getD (p - 1) zeroPage = ps.getD p zeroPage := by
  rw [List.getD_eq_getElem?_getD, List.getD_eq_getElem?_getD, List.getElem?_drop]
  rw [show 1 + (p - 1) = p by omega]

theorem dropOne_set_zero (ps : List Page) (pg : Page) :
    (ps.set 0 pg).drop 1 = ps.drop 1 := by
  cases ps with
  | nil => rfl
  | cons a t => rfl

theorem setDataPage_sum (ps : List Page) (p : Nat) (pg : Page) (f : Page → Int)
    (hp1 : 1 ≤ p) (hp2 : p < ps.length) :
    (((ps.set p pg).drop 1).map f).sum
      = ((ps.drop 1).map f).sum + f pg - f (ps.getD p zeroPage) := by
  rw [dropOne_set ps p pg hp1]
  rw [sum_map_set f (ps.drop 1) (p - 1) pg (by simp; omega)]
  rw [getD_dropOne ps p hp1]

/-- Inserting into a well-formed page at a free slot: the payload write, the
flag set and the header increment keep the page well formed and raise the
flag count by one. -/
theorem pageOK_insert_page (N : Nat) (pg : Page) (src : List Nat) (s off : Nat)
    (hoff : 4 + N ≤ off) (hs : s < N) (hflag : getSlotFlag pg s = 0)
    (hok : PageOK N pg) (hrange : flagCount pg N + 1 < 2147483648) :
    PageOK N (writeHeader (setSlotFlag (writeBytes pg off src) s 1) (readHeader pg + 1)) ∧
    flagCount (writeHeader (setSlotFlag (writeBytes pg off src) s 1) (readHeader pg + 1)) N
      = flagCount pg N + 1 := by
  have hflags1 : ∀ t, t < N → getSlotFlag (writeBytes pg off src) t = getSlotFlag pg t :=
    fun t ht => getSlotFlag_writeBytes_of_lt pg off src t (by omega)
  have hfc1 : flagCount (writeBytes pg off src) N = flagCount pg N :=
    flagCount_congr _ _ _ hflags1
  have hfc2 : flagCount (setSlotFlag (writeBytes pg off src) s 1) N = flagCount pg N + 1 := by
    rw [flagCount_setSlotFlag_zero_to_one _ _ _ hs (by rw [hflags1 s hs, hflag]; omega), hfc1]
  have hfc3 : flagCount (writeHeader (setSlotFlag (writeBytes pg off src) s 1)
      (readHeader pg + 1)) N = flagCount pg N + 1 := by
    rw [flagCount_congr _ (setSlotFlag (writeBytes pg off src) s 1) N
      (fun t _ => getSlotFlag_writeHeader _ _ t), hfc2]
  refine ⟨?_, hfc3⟩
  unfold PageOK
  rw [readHeader_writeHeader _ _ (by unfold PageOK at hok; omega)
    (by unfold PageOK at hok; omega), hfc3]
  unfold PageOK at hok
  omega

/-- Deleting a used slot of a well-formed page: clearing the flag and
decrementing the header keep the page well formed and lower the flag count
by one. -/
theorem pageOK_delete_page (N : Nat) (pg : Page) (s : Nat)
    (hs : s < N) (hflag : getSlotFlag pg s = 1)
    (hok : PageOK N pg) (hrange : flagCount pg N < 2147483648) :
    PageOK N (writeHeader (setSlotFlag pg s 0) (readHeader pg - 1)) ∧
    (flagCount (writeHeader (setSlotFlag pg s 0) (readHeader pg - 1)) N : Int)
      = (flagCount pg N : Int) - 1 := by
  have hpos : 1 ≤ flagCount pg N := flagCount_pos pg N s hs hflag
  have hfc2 : flagCount (setSlotFlag pg s 0) N + 1 = flagCount pg N :=
    flagCount_setSlotFlag_one_to_zero pg N s hs hflag
  have hfc3 : flagCount (writeHeader (setSlotFlag pg s 0) (readHeader pg - 1)) N + 1
      = flagCount pg N := by
    rw [flagCount_congr _ (setSlotFlag pg s 0) N
      (fun t _ => getSlotFlag_writeHeader _ _ t)]
    exact hfc2
  constructor
  · unfold PageOK
    rw [readHeader_writeHeader _ _ (by unfold PageOK at hok; omega)
      (by unfold PageOK at hok; omega)]
    unfold PageOK at hok
    omega
  · omega

theorem flagCount_zeroPage_int (N : Nat) : ((flagCount zeroPage N : Int)) = 0 := by
  rw [flagCount_zeroPage]
  rfl

theorem extendTo_inv (pageSize recSize : Nat) (st : TableState) (q : Nat)
    (hinv : TableInv pageSize recSize st) :
    TableInv pageSize recSize { st with pages := extendTo st.pages q } := by
  obtain ⟨hA, hB, hC, hD, hE, hF⟩ := hinv
  refine ⟨hA, ?_, hC, ?_, ?_, ?_⟩
  · rw [extendTo_length]
    omega
  · intro s hsN
    rw [extendTo_getD_lt st.pages q 0 (by omega)]
    exact hD s hsN
  · intro p hp1 hp2
    rcases lt_or_le p st.pages.length with hlt | hge
    · rw [extendTo_getD_lt st.pages q p hlt]
      exact hE p hp1 hlt
    · rw [extendTo_getD_ge st.pages q p hge]
      exact pageOK_zeroPage _
  · show st.numTuples = _
    rw [sum_map_extendTo _ st.pages q hB (flagCount_zeroPage_int _)]
    exact hF

theorem updateRecord_inv (pageSize recSize : Nat) (st : TableState) (rec : Record)
    (hs : rec.id.slot < computeMaxSlots pageSize recSize)
    (hinv : TableInv pageSize recSize st) :
    TableInv pageSize recSize (updateRecord pageSize st rec).2.1 := by
  have hA := hinv.1
  have hNeq : computeMaxSlots pageSize st.recordSize = computeMaxSlots pageSize recSize := by
    rw [hA]
  simp only [updateRecord]
  split
  · exact extendTo_inv pageSize recSize st rec.id.page hinv
  · next hflag =>
    set N := computeMaxSlots pageSize recSize with hN
    have hext := extendTo_inv pageSize recSize st rec.id.page hinv
    set ps := extendTo st.pages rec.id.page with hps
    set data := ps.getD rec.id.page zeroPage with hdata
    set off := 4 + computeMaxSlots pageSize st.recordSize + rec.id.slot * st.recordSize with hoff
    set src := readBytes rec.data 0 st.recordSize with hsrc
    set data1 := writeBytes data off src with hdata1
    obtain ⟨eA, eB, eC, eD, eE, eF⟩ := hext
    have hplen : rec.id.page < ps.length := by
      rw [hps, extendTo_length]
      omega
    have hflags1 : ∀ t, t < N → getSlotFlag data1 t = getSlotFlag data t := by
      intro t ht
      rw [hdata1]
      apply getSlotFlag_writeBytes_of_lt
      rw [hoff, hNeq]
      omega
    have hfc1 : flagCount data1 N = flagCount data N := flagCount_congr _ _ _ hflags1
    have hhd1 : readHeader data1 = readHeader data := by
      rw [hdata1]
      exact readHeader_writeBytes_of_ge _ _ _ (by rw [hoff]; omega)
    refine ⟨hA, by simpa using eB, eC, ?_, ?_, ?_⟩
    · intro s hsN
      rcases Nat.eq_zero_or_pos rec.id.page with hz | hpos
      · rw [hz] at hplen ⊢
        rw [getD_set_self ps 0 data1 hplen]
        rw [hflags1 s hsN]
        rw [hz] at hdata
        rw [hdata]
        exact eD s hsN
      · rw [getD_set_ne ps rec.id.page 0 data1 (by omega)]
        exact eD s hsN
    · intro p hp1 hp2
      rcases eq_or_ne p rec.id.page with rfl | hne
      · rw [getD_set_self ps rec.id.page data1 hplen]
        have hpok := eE rec.id.page hp1 hplen
        unfold PageOK at hpok ⊢
        rw [hhd1, hfc1]
        exact hpok
      · rw [getD_set_ne ps rec.id.page p data1 hne]
        exact eE p hp1 (by simpa using hp2)
    · show st.numTuples = _
      rcases Nat.eq_zero_or_pos rec.id.page with hz | hpos
      · rw [hz]
        rw [dropOne_set_zero]
        exact eF
      · rw [setDataPage_sum ps rec.id.page data1 _ hpos hplen]
        rw [hfc1]
        rw [← hdata]
        have heF : st.numTuples = ((ps.drop 1).map fun pg => ((flagCount pg N : Int))).sum := eF
        rw [heF]
        ring

theorem deleteRecord_inv (pageSize recSize : Nat) (st : TableState) (id : RID)
    (hps : pageSize < 2147483648)
    (hs : id.slot < computeMaxSlots pageSize recSize)
    (hinv : TableInv pageSize recSize st) :
    TableInv pageSize recSize (deleteRecord pageSize st id).2 := by
  have hA := hinv.1
  have hNeq : computeMaxSlots pageSize st.recordSize = computeMaxSlots pageSize recSize := by
    rw [hA]
  simp only [deleteRecord]
  split
  · next hflag =>
    set N := computeMaxSlots pageSize recSize with hN
    have hext := extendTo_inv pageSize recSize st id.page hinv
    set ps := extendTo st.pages id.page with hps2
    set data := ps.getD id.page zeroPage with hdata
    obtain ⟨eA, eB, eC, eD, eE, eF⟩ := hext
    have hplen : id.page < ps.length := by
      rw [hps2, extendTo_length]
      omega
    have hpage1 : 1 ≤ id.page := by
      rcases Nat.eq_zero_or_pos id.page with hz | hpos
      · exfalso
        apply eD id.slot hs
        rw [← hz, ← hdata]
        exact hflag
      · exact hpos
    have hpok : PageOK N data := eE id.page hpage1 hplen
    have hfcle : flagCount data N ≤ N := flagCount_le data N
    have hNle : N ≤ pageSize := computeMaxSlots_le pageSize recSize
    obtain ⟨hok2, hfc2⟩ := pageOK_delete_page N data id.slot hs hflag hpok (by omega)
    set data2 := writeHeader (setSlotFlag data id.slot 0) (readHeader data - 1) with hdata2
    refine ⟨hA, by simpa using eB, ?_, ?_, ?_, ?_⟩
    · split
      · right
        show (1 : Int) ≤ (id.page : Int)
        omega
      · exact eC
    · intro s hsN
      rw [getD_set_ne ps id.page 0 data2 (by omega)]
      exact eD s hsN
    · intro p hp1 hp2
      rcases eq_or_ne p id.page with rfl | hne
      · rw [getD_set_self ps id.page data2 hplen]
        exact hok2
      · rw [getD_set_ne ps id.page p data2 hne]
        exact eE p hp1 (by simpa using hp2)
    · show st.numTuples - 1 = _
      rw [setDataPage_sum ps id.page data2 _ hpage1 hplen]
      rw [← hdata, hfc2]
      have heF : st.numTuples = ((ps.drop 1).map fun pg => ((flagCount pg N : Int))).sum := eF
      rw [heF]
      ring
  · exact extendTo_inv pageSize recSize st id.page hinv

theorem tableInv_set_nextFree_none (pageSize recSize : Nat) (st : TableState)
    (hinv : TableInv pageSize recSize st) :
    TableInv pageSize recSize { st with nextFreePage := -1 } := by
  obtain ⟨hA, hB, hC, hD, hE, hF⟩ := hinv
  exact ⟨hA, hB, Or.inl rfl, hD, hE, hF⟩

theorem insertRecordAux_inv (pageSize recSize : Nat) (hps : pageSize < 2147483648)
    (fuel : Nat) (st : TableState) (rec : Record) (res : RC × TableState × Record)
    (hinv : TableInv pageSize recSize st)
    (h : insertRecordAux pageSize fuel st rec = some res) :
    TableInv pageSize recSize res.2.1 := by
  induction fuel generalizing st with
  | zero => exact absurd h (by simp [insertRecordAux])
  | succ fuel ih =>
      rw [insertRecordAux] at h
      have hA := hinv.1
      set N := computeMaxSlots pageSize recSize with hN
      have hNeq : computeMaxSlots pageSize st.recordSize = N := by rw [hA]
      set st1 := if st.nextFreePage < 1 then
          { st with
            pages := (extendTo st.pages st.pages.length).set st.pages.length (writeHeader zeroPage 0),
            nextFreePage := (st.pages.length : Int) }
        else st with hst1
      have hrs1 : st1.recordSize = st.recordSize := by
        rw [hst1]
        split <;> rfl
      simp only [← hst1, hrs1] at h
      have hinv1 : TableInv pageSize recSize st1 ∧ 1 ≤ st1.nextFreePage := by
        rw [hst1]
        split
        · next hlt =>
            have hext := extendTo_inv pageSize recSize st st.pages.length hinv
            obtain ⟨eA, eB, eC, eD, eE, eF⟩ := hext
            set pn := st.pages.length with hpn0
            set ps1 := extendTo st.pages pn with hps1
            set newpg := writeHeader zeroPage 0 with hnewpg
            have hB0 := hinv.2.1
            have hlen1 : ps1.length = pn + 1 := by
              rw [hps1, extendTo_length]
              omega
            have hplen : pn < ps1.length := by omega
            have hgdz : ps1.getD pn zeroPage = zeroPage :=
              extendTo_getD_ge st.pages pn pn (by omega)
            obtain ⟨hokn, hfcn⟩ := pageOK_newDataPage N
            refine ⟨⟨hA, by simp; omega, Or.inr (by show (1 : Int) ≤ (pn : Int); omega), ?_, ?_, ?_⟩,
              by show (1 : Int) ≤ (pn : Int); omega⟩
            · intro s hsN
              rw [getD_set_ne ps1 pn 0 newpg (by omega)]
              exact eD s hsN
            · intro p hp1 hp2
              rcases eq_or_ne p pn with rfl | hne
              · rw [getD_set_self ps1 pn newpg hplen]
                exact hokn
              · rw [getD_set_ne ps1 pn p newpg hne]
                exact eE p hp1 (by simp at hp2 ⊢; omega)
            · show st.numTuples = _
              rw [setDataPage_sum ps1 pn newpg _ (by omega) hplen]
              rw [hgdz, hfcn, flagCount_zeroPage]
              have heF : st.numTuples = ((ps1.drop 1).map fun pg =>
                  ((flagCount pg N : Int))).sum := eF
              rw [heF]
              ring
        · next hge =>
            refine ⟨hinv, ?_⟩
            rcases hinv.2.2.1 with hm | hm
            · omega
            · exact hm
      obtain ⟨hinv1', hnf1⟩ := hinv1
      set pageNum := st1.nextFreePage.toNat with hpn
      have hpage1 : 1 ≤ pageNum := by
        rw [hpn]
        omega
      have hext2 := extendTo_inv pageSize recSize st1 pageNum hinv1'
      set ps2 := extendTo st1.pages pageNum with hps2
      obtain ⟨fA, fB, fC, fD, fE, fF⟩ := hext2
      have hplen2 : pageNum < ps2.length := by
        rw [hps2, extendTo_length]
        omega
      set data := ps2.getD pageNum zeroPage with hdata
      cases hfs : findFreeSlot data (computeMaxSlots pageSize st.recordSize) with
      | none =>
          simp only [hfs] at h
          apply ih ⟨ps2, st1.numTuples, -1, st.recordSize⟩ _ h
          exact ⟨hA, fB, Or.inl rfl, fD, fE, fF⟩
      | some freeSlot =>
          simp only [hfs] at h
          rw [hNeq] at hfs
          obtain ⟨hsN, hs0⟩ := findFreeSlot_some data N freeSlot hfs
          have hpok : PageOK N data := fE pageNum hpage1 hplen2
          have hN1 : 1 ≤ N := by omega
          have hpg5 : 4 + N ≤ pageSize := by
            have hd1 : 1 ≤ (pageSize - 4) / (st.recordSize + 1) := by
              have hone : 1 ≤ computeMaxSlots pageSize st.recordSize := by
                rw [hNeq]
                omega
              simpa [computeMaxSlots] using hone
            have hd2 : st.recordSize + 1 ≤ pageSize - 4 :=
              (Nat.one_le_div_iff (by omega)).mp hd1
            have hd3 : N ≤ pageSize - 4 := by
              rw [← hNeq]
              exact le_trans (Nat.div_le_self _ _) (le_refl _)
            omega
          have hfcle : flagCount data N ≤ N := flagCount_le data N
          obtain ⟨hok3, hfc3⟩ := pageOK_insert_page N data
            (readBytes rec.data 0 st.recordSize) freeSlot
            (4 + computeMaxSlots pageSize st.recordSize + freeSlot * st.recordSize)
            (by rw [hNeq]; omega) hsN hs0 hpok (by omega)
          set data3 := writeHeader (setSlotFlag
            (writeBytes data (4 + computeMaxSlots pageSize st.recordSize + freeSlot * st.recordSize)
              (readBytes rec.data 0 st.recordSize)) freeSlot 1) (readHeader data + 1) with hdata3
          have hres : res = (RC_OK,
              { pages := ps2.set pageNum data3,
                numTuples := st1.numTuples + 1,
                nextFreePage := if readHeader data + 1 = ((computeMaxSlots pageSize st.recordSize : Nat) : Int)
                  then -1 else (pageNum : Int),
                recordSize := st.recordSize },
              { rec with id := ⟨pageNum, freeSlot⟩ }) := (Option.some_inj.mp h).symm
          subst hres
          refine ⟨hA, by simp; omega, ?_, ?_, ?_, ?_⟩
          · show (if readHeader data + 1 = ((computeMaxSlots pageSize st.recordSize : Nat) : Int)
              then (-1 : Int) else (pageNum : Int)) = -1 ∨ _
            split
            · exact Or.inl rfl
            · right
              show (1 : Int) ≤ (pageNum : Int)
              omega
          · intro s hsN2
            show getSlotFlag ((ps2.set pageNum data3).getD 0 zeroPage) s ≠ 1
            rw [getD_set_ne ps2 pageNum 0 data3 (by omega)]
            exact fD s hsN2
          · intro p hp1 hp2
            show PageOK N ((ps2.set pageNum data3).getD p zeroPage)
            rcases eq_or_ne p pageNum with rfl | hne
            · rw [getD_set_self ps2 pageNum data3 hplen2]
              exact hok3
            · rw [getD_set_ne ps2 pageNum p data3 hne]
              exact fE p hp1 (by simp at hp2 ⊢; omega)
          · show st1.numTuples + 1 = _
            rw [setDataPage_sum ps2 pageNum data3 _ hpage1 hplen2]
            rw [← hdata, hfc3]
            have hfF : st1.numTuples = ((ps2.drop 1).map fun pg =>
                ((flagCount pg N : Int))).sum := fF
            rw [hfF]
            push_cast
            ring

theorem reach_tableInv (pageSize recSize : Nat) (cat : Page) (st : TableState)
    (hps : pageSize < 2147483648)
    (hcat : ∀ s, s < computeMaxSlots pageSize recSize → cat (4 + s) ≠ 1)
    (hr : Reach pageSize recSize cat st) :
    TableInv pageSize recSize st := by
  induction hr with
  | init =>
      refine ⟨rfl, by simp, Or.inl rfl, ?_, ?_, ?_⟩
      · intro s hsN
        show getSlotFlag (([cat] : List Page).getD 0 zeroPage) s ≠ 1
        rw [List.getD_cons_zero]
        exact hcat s hsN
      · intro p hp1 hp2
        simp at hp2
        omega
      · simp
  | insert hr hins ih => exact insertRecordAux_inv pageSize recSize hps 2 _ _ _ ih hins
  | del hr hslot ih => exact deleteRecord_inv pageSize recSize _ _ hps hslot ih
  | update hr hslot ih => exact updateRecord_inv pageSize recSize _ _ hslot ih

/-- Claim C2: in every table state reachable from createTable by
insertRecord, deleteRecord and updateRecord calls whose RID slot numbers
lie within the slot capacity, the in-memory numTuples counter equals the
sum of the slotsUsed headers over all data pages, which equals the total
count of 1-valued usage bytes over all data pages.  The catalog hypothesis
says page 0's flag region holds no byte 1 (it is ASCII text written by
writeTableInfo). -/
theorem claimC2_tuple_accounting (pageSize recSize : Nat) (cat : Page) (st : TableState)
    (hps : pageSize < 2147483648)
    (hcat : ∀ s, s < computeMaxSlots pageSize recSize → cat (4 + s) ≠ 1)
    (hr : Reach pageSize recSize cat st) :
    st.numTuples = sumHeaders st ∧ sumHeaders st = sumFlags pageSize st := by
  obtain ⟨hA, hB, hC, hD, hE, hF⟩ := reach_tableInv pageSize recSize cat st hps hcat hr
  have hcongr : (st.pages.drop 1).map readHeader
      = (st.pages.drop 1).map fun pg =>
        ((flagCount pg (computeMaxSlots pageSize recSize) : Int)) := by
    apply List.map_congr_left
    intro pg hmem
    obtain ⟨k, hk, hpg⟩ := List.getElem_of_mem hmem
    have hgd : pg = (st.pages.drop 1).getD k zeroPage := by
      rw [List.getD_eq_getElem?_getD, List.getElem?_eq_getElem hk, ← hpg]
      rfl
    have hgd2 : (st.pages.drop 1).getD k zeroPage = st.pages.getD (k + 1) zeroPage := by
      have hh := getD_dropOne st.pages (k + 1) (by omega)
      rw [show k + 1 - 1 = k by omega] at hh
      exact hh
    have hk2 : k + 1 < st.pages.length := by
      have hlen : (st.pages.drop 1).length = st.pages.length - 1 := by simp
      omega
    have hpok := hE (k + 1) (by omega) hk2
    unfold PageOK at hpok
    rw [hgd, hgd2]
    exact hpok
  constructor
  · show st.numTuples = sumHeaders st
    unfold sumHeaders
    rw [hcongr]
    exact hF
  · unfold sumHeaders sumFlags
    rw [hcongr, hA]

/-- Witness for C2: the state reached by one concrete insert into a fresh
table satisfies the accounting identity (numTuples 1, one data page with
header 1 and one 1-valued usage byte). -/
theorem claimC2_witness :
    witReach.2.1.numTuples = sumHeaders witReach.2.1 ∧
    sumHeaders witReach.2.1 = sumFlags 16 witReach.2.1 ∧
    witReach.2.1.numTuples = 1 :=
  have hr : Reach 16 2 zeroPage witReach.2.1 :=
    Reach.insert Reach.init
      (rfl : insertRecord 16 ⟨[zeroPage], 0, -1, 2⟩ ⟨⟨0, 0⟩, fun _ => 9⟩ = some witReach)
  have hmain := claimC2_tuple_accounting 16 2 zeroPage witReach.2.1 (by decide) (by decide) hr
  ⟨hmain.1, hmain.2, by decide⟩
